import Mathlib

/-!
# Verification of the candle tensor core (`candle-core/src/tensor.rs`)

This file gives a shallow embedding of the tensor value model of the
repository.  The code of `tensor.rs` is translated definition by definition;
the pieces of the repository that the analyzed slice only calls into
(`shape.rs`, `layout.rs`, `storage.rs`, `op.rs`, the device backends) are
modelled from the specification, and each such definition is marked with a
doc comment starting with `Modelled from the spec:`.

Effects of the Rust code are made explicit:
* the process-wide monotonic `TensorId` counter becomes a threaded `Nat`;
* every backend kernel invocation (allocation, elementwise map, reduction,
  matmul, copy, gather/scatter kernels) is recorded in an event trace, so
  that "no backend was touched before the failure" is a statement about the
  trace;
* fallible operations return `Except Err`.

Storages hold `List Int` element buffers; dtype and device are carried as
tags exactly as in the source.  Machine-width arithmetic never overflows in
the claims under study, so `Nat` indices are used directly.
-/

namespace Candle

/-- Element dtypes; the concrete set does not matter for the claims, only
that the tags are compared. Mirrors `DType` of the source crate. -/
inductive DType where
  | u8 | u32 | f32 | f64
  deriving DecidableEq, Repr

/-- Devices. Mirrors `Device`: a CPU device and an accelerator. -/
inductive Device where
  | cpu | cuda (ordinal : Nat)
  deriving DecidableEq, Repr

/-- The error taxonomy used by the operations under study
(`Error` in the source crate). -/
inductive Err where
  | shapeMismatchBinaryOp (lhs rhs : List Nat) (op : String)
  | dimOutOfRange (shape : List Nat) (dim : Nat) (op : String)
  | narrowInvalidArgs (shape : List Nat) (dim start len : Nat) (msg : String)
  | dtypeMismatchBinaryOp (lhs rhs : DType) (op : String)
  | deviceMismatchBinaryOp (lhs rhs : Device) (op : String)
  | unexpectedNumberOfDims (expected got : Nat) (shape : List Nat)
  | shapeMismatchCat (dim : Nat) (firstShape : List Nat) (n : Nat) (nthShape : List Nat)
  | opRequiresAtLeastOneTensor (op : String)
  | broadcastIncompatibleShapes (srcShape dstShape : List Nat)
  deriving DecidableEq, Repr

/-- Backend events: one entry per backend kernel invocation / allocation.
Used to state that failing composite operations never touch a backend. -/
inductive BEvent where
  | alloc (shape : List Nat) (dtype : DType)
  | unaryKernel (name : String)
  | binaryKernel (name : String)
  | reduceKernel (name : String)
  | matmulKernel
  | copyKernel
  | indexSelectKernel
  | indexAddKernel
  deriving DecidableEq, Repr

/-- The explicit state threaded through every tensor operation: the
process-wide monotonic id counter (`TensorId::new`) and the trace of
backend kernel invocations performed so far. -/
structure St where
  nextId : Nat
  trace : List BEvent
  deriving DecidableEq, Repr

instance {ε α : Type} [DecidableEq ε] [DecidableEq α] : DecidableEq (Except ε α)
  | .error e, .error f =>
    if h : e = f then .isTrue (by rw [h]) else .isFalse (by simp [h])
  | .error _, .ok _ => .isFalse (by simp)
  | .ok _, .error _ => .isFalse (by simp)
  | .ok a, .ok b =>
    if h : a = b then .isTrue (by rw [h]) else .isFalse (by simp [h])

/-- The effect monad of the embedding: fallible state transformer over
`St`.  An error result leaves the state visible so that statements about
the trace at the moment of failure can be made. -/
def M (α : Type) : Type := St → Except Err α × St

namespace M

def pure (a : α) : M α := fun s => (.ok a, s)

def bind (x : M α) (f : α → M β) : M β := fun s =>
  match x s with
  | (.ok a, s') => f a s'
  | (.error e, s') => (.error e, s')

def throw (e : Err) : M α := fun s => (.error e, s)

/-- `TensorId::new()`: atomic fetch-add on the process-wide counter. -/
def freshId : M Nat := fun s => (.ok s.nextId, { s with nextId := s.nextId + 1 })

/-- Record one backend kernel invocation. -/
def emit (ev : BEvent) : M Unit := fun s => (.ok (), { s with trace := s.trace ++ [ev] })

/-- Lift a pure fallible computation (`?` on a `Result` that involves no
backend work). -/
def ofExcept (x : Except Err α) : M α := fun s => (x, s)

end M

instance : Monad M where
  pure := M.pure
  bind := M.bind

@[simp] theorem M.bind_eq : (Bind.bind : M α → (α → M β) → M β) = M.bind := rfl

@[simp] theorem M.pure_eq : (Pure.pure : α → M α) = M.pure := rfl

@[simp] theorem M.pure_apply (a : α) (s : St) : (M.pure a : M α) s = (.ok a, s) := rfl

@[simp] theorem M.throw_apply (e : Err) (s : St) : (M.throw e : M α) s = (.error e, s) := rfl

@[simp] theorem M.ofExcept_apply (x : Except Err α) (s : St) : M.ofExcept x s = (x, s) := rfl

@[simp] theorem M.freshId_apply (s : St) :
    M.freshId s = (.ok s.nextId, { s with nextId := s.nextId + 1 }) := rfl

@[simp] theorem M.emit_apply (ev : BEvent) (s : St) :
    M.emit ev s = (.ok (), { s with trace := s.trace ++ [ev] }) := rfl

theorem M.bind_apply (x : M α) (f : α → M β) (s : St) :
    M.bind x f s = match x s with
      | (.ok a, s') => f a s'
      | (.error e, s') => (.error e, s') := rfl

@[simp] theorem M.bind_apply_ok (x : M α) (f : α → M β) (s s' : St) (a : α)
    (h : x s = (.ok a, s')) : M.bind x f s = f a s' := by
  simp [M.bind, h]

@[simp] theorem M.bind_apply_error (x : M α) (f : α → M β) (s s' : St) (e : Err)
    (h : x s = (.error e, s')) : M.bind x f s = (.error e, s') := by
  simp [M.bind, h]

/-! ## Shapes

A shape is an ordered list of dimension sizes; the element count is the
product (`Shape::elem_count`), which is `1` for the rank-0 scalar shape. -/

/-- `Shape::elem_count`: product of the dimension sizes. -/
def elemCount (dims : List Nat) : Nat := dims.prod

/-- Modelled from the spec: `Dim::to_index` for a `usize` dimension
argument resolves the index against the shape, failing with
`DimOutOfRange` when it is not smaller than the rank
(spec 7: "DimensionOutOfRange"). -/
def dimToIndex (dim : Nat) (shape : List Nat) (op : String) : Except Err Nat :=
  if dim ≥ shape.length then .error (.dimOutOfRange shape dim op) else .ok dim

/-- Modelled from the spec: `Dims::to_indexes` resolves each member of a
dimension-index list against the shape, failing on the first out-of-range
entry. -/
def dimsToIndexes (dims : List Nat) (shape : List Nat) (op : String) : Except Err (List Nat) :=
  dims.mapM (fun d => dimToIndex d shape op)

/-- One step of the trailing-aligned broadcast rule of spec 4.1: equal
dimensions broadcast to themselves, a `1` broadcasts to the other side. -/
def bcastDim (l r : Nat) : Option Nat :=
  if l = r then some l else if l = 1 then some r else if r = 1 then some l else none

/-- Pointwise broadcast of two equal-length padded shapes. -/
def bcastZip : List Nat → List Nat → Option (List Nat)
  | [], [] => some []
  | a :: as_, b :: bs =>
    match bcastDim a b, bcastZip as_ bs with
    | some d, some rest => some (d :: rest)
    | _, _ => none
  | _, _ => none

/-- Pad a shape on the left with `1`s up to length `n`. -/
def padOnes (n : Nat) (l : List Nat) : List Nat := List.replicate (n - l.length) 1 ++ l

/-- Modelled from the spec: `Shape::broadcast_shape_binary_op` aligns the
two shapes from the trailing dimension (shorter shape padded with leading
1s) and combines them dimension by dimension; incompatible dimensions
yield a `ShapeMismatchBinaryOp` naming the operation (spec 4.1, 4.3). -/
def broadcastShapeBinaryOp (lhs rhs : List Nat) (op : String) : Except Err (List Nat) :=
  match bcastZip (padOnes (max lhs.length rhs.length) lhs)
      (padOnes (max lhs.length rhs.length) rhs) with
  | some dims => .ok dims
  | none => .error (.shapeMismatchBinaryOp lhs rhs op)

/-! ## Layouts -/

/-- `Layout`: shape, per-dimension strides in element units, and a start
offset in element units into the underlying buffer (spec 3). -/
structure Layout where
  dims : List Nat
  stride : List Nat
  startOffset : Nat
  deriving DecidableEq, Repr

/-- Row-major (C contiguous) strides for a shape: each stride is the
product of the dimensions to its right. -/
def contiguousStride : List Nat → List Nat
  | [] => []
  | _ :: ds => ds.prod :: contiguousStride ds

/-- `Layout::contiguous_with_offset`. -/
def Layout.contiguousWithOffset (shape : List Nat) (offset : Nat) : Layout :=
  ⟨shape, contiguousStride shape, offset⟩

/-- `Layout::contiguous`: row-major strides, offset 0. -/
def Layout.contiguous (shape : List Nat) : Layout := .contiguousWithOffset shape 0

/-- Modelled from the spec: a layout is contiguous iff its strides equal
the canonical row-major strides derived from its shape (spec 3,
"Invariant: a layout is 'contiguous' iff strides equal the canonical
row-major strides derived from shape"). -/
def Layout.isContiguous (l : Layout) : Bool := l.stride = contiguousStride l.dims

/-- Modelled from the spec: `Layout::narrow(dim, start, len)` keeps the
strides, restricts dimension `dim` to `len` entries and advances the
start offset by `start` strides; it fails with a range error when
`start + len` exceeds the dimension's size (spec 4.1). -/
def Layout.narrow (l : Layout) (dim start len : Nat) : Except Err Layout :=
  if dim ≥ l.dims.length then
    .error (.dimOutOfRange l.dims dim "narrow")
  else if start + len > l.dims.getD dim 0 then
    .error (.narrowInvalidArgs l.dims dim start len "start + len > dim_len")
  else
    .ok ⟨l.dims.set dim len, l.stride, l.startOffset + l.stride.getD dim 0 * start⟩

/-- Swap the entries at positions `i` and `j` of a list (out-of-range
positions are left untouched, as with `Vec::swap` on valid indices). -/
def swapIdx (l : List Nat) (i j : Nat) : List Nat :=
  (l.set i (l.getD j 0)).set j (l.getD i 0)

/-- Modelled from the spec: `Layout::transpose(d1, d2)` swaps the two
dimensions in both the shape and the strides, failing when either index
is out of range (spec 4.1). -/
def Layout.transpose (l : Layout) (d1 d2 : Nat) : Except Err Layout :=
  if l.dims.length ≤ d1 ∨ l.dims.length ≤ d2 then
    .error (.unexpectedNumberOfDims (max d1 d2 + 1) l.dims.length l.dims)
  else
    .ok ⟨swapIdx l.dims d1 d2, swapIdx l.stride d1 d2, l.startOffset⟩

/-- Per-dimension stride for a trailing-aligned broadcast: a kept
dimension keeps its stride, a broadcast dimension (source size 1, target
different) gets stride 0, anything else is incompatible (spec 4.1). -/
def bcastStrides : List (Nat × Nat × Nat) → Option (List Nat)
  | [] => some []
  | (dst, src, st) :: rest =>
    let s? := if dst = src then some st else if src ≠ 1 then none else some 0
    match s?, bcastStrides rest with
    | some s, some r => some (s :: r)
    | _, _ => none

/-- Modelled from the spec: `Layout::broadcast_as(shape)` fails unless,
aligning shapes from the trailing dimension, every source dimension is
either equal to the target dimension or equal to 1; new leading
dimensions get stride 0, and every broadcast dimension gets stride 0 so
that no data is duplicated (spec 4.1). -/
def Layout.broadcastAs (l : Layout) (shape : List Nat) : Except Err Layout :=
  if shape.length < l.dims.length then
    .error (.broadcastIncompatibleShapes l.dims shape)
  else
    match bcastStrides ((shape.drop (shape.length - l.dims.length)).zip
        (l.dims.zip l.stride)) with
    | some st => .ok ⟨shape, List.replicate (shape.length - l.dims.length) 0 ++ st,
        l.startOffset⟩
    | none => .error (.broadcastIncompatibleShapes l.dims shape)

/-- All logical index tuples of a shape, in row-major (lexicographic)
order; this is the order in which `Layout::strided_index` visits the
logical elements (spec 4.1). -/
def allIndices : List Nat → List (List Nat)
  | [] => [[]]
  | d :: ds => (List.range d).flatMap fun i => (allIndices ds).map (i :: ·)

/-- The linear buffer offset of one logical index tuple:
`start_offset + Σ index[i] * stride[i]` (spec 3). -/
def Layout.offsetOf (l : Layout) (idx : List Nat) : Nat :=
  l.startOffset + (List.zipWith (· * ·) idx l.stride).sum

/-- The sequence of buffer offsets visited by `strided_index()`:
one offset per logical element, in row-major logical order. -/
def Layout.stridedOffsets (l : Layout) : List Nat :=
  (allIndices l.dims).map l.offsetOf

/-! ## Storage and backend kernels -/

/-- `Storage`: an owned, device-resident, typed buffer (spec 3). -/
structure Storage where
  data : List Int
  dtype : DType
  device : Device
  deriving DecidableEq, Repr

/-- Read the logical contents of a buffer through a layout, in row-major
logical order (out-of-range offsets read 0; valid tensors never produce
them). -/
def materialize (data : List Int) (l : Layout) : List Int :=
  (allIndices l.dims).map fun idx => data.getD (l.offsetOf idx) 0

/-- Modelled from the spec: `BackendDevice::zeros` produces a zero-filled
storage for a shape and dtype (spec 6). The allocation is recorded as a
backend event. -/
def Device.zeros (device : Device) (shape : List Nat) (dtype : DType) : M Storage := do
  M.emit (.alloc shape dtype)
  M.pure ⟨List.replicate (elemCount shape) 0, dtype, device⟩

/-- Modelled from the spec: `BackendDevice::ones` produces a one-filled
storage for a shape and dtype (spec 6). -/
def Device.ones (device : Device) (shape : List Nat) (dtype : DType) : M Storage := do
  M.emit (.alloc shape dtype)
  M.pure ⟨List.replicate (elemCount shape) 1, dtype, device⟩

/-- Modelled from the spec: `Storage::binary_impl` checks that the two
storages live on the same device and have the same dtype, then runs the
elementwise binary kernel over the logical contents of both operands
(spec 4.2: binary map assumes identical logical shape, fails with typed
dtype/device mismatch errors). -/
def Storage.binaryImpl (name : String) (f : Int → Int → Int) (lhs rhs : Storage)
    (ll rl : Layout) : M Storage := do
  if lhs.device ≠ rhs.device then
    M.throw (.deviceMismatchBinaryOp lhs.device rhs.device name)
  else if lhs.dtype ≠ rhs.dtype then
    M.throw (.dtypeMismatchBinaryOp lhs.dtype rhs.dtype name)
  else do
    M.emit (.binaryKernel name)
    M.pure ⟨List.zipWith f (materialize lhs.data ll) (materialize rhs.data rl),
      lhs.dtype, lhs.device⟩

/-- Flatten a logical index tuple against row-major strides of `dims`. -/
def flattenIdx (dims idx : List Nat) : Nat :=
  (List.zipWith (· * ·) idx (contiguousStride dims)).sum

/-- Modelled from the spec: the batched matmul kernel; operands are read
through their layouts and contracted over the shared inner dimension
(spec 4.2). -/
def Storage.matmulKernel (lhs rhs : Storage) (bmnk : Nat × Nat × Nat × Nat)
    (ll rl : Layout) : M Storage := do
  if lhs.device ≠ rhs.device then
    M.throw (.deviceMismatchBinaryOp lhs.device rhs.device "matmul")
  else if lhs.dtype ≠ rhs.dtype then
    M.throw (.dtypeMismatchBinaryOp lhs.dtype rhs.dtype "matmul")
  else do
    M.emit .matmulKernel
    let (batching, m, n, k) := bmnk
    let a := materialize lhs.data ll
    let b := materialize rhs.data rl
    let out := (List.range batching).flatMap fun bi =>
      (List.range m).flatMap fun i =>
        (List.range n).map fun j =>
          ((List.range k).map fun p =>
            a.getD (bi * (m * k) + i * k + p) 0 * b.getD (bi * (k * n) + p * n + j) 0).sum
    M.pure ⟨out, lhs.dtype, lhs.device⟩

/-- Modelled from the spec: the reduction kernel sums (or otherwise
reduces) over the given dimension subset, producing a contiguous output
whose reduced dimensions have size 1 (spec 4.2). Only `Sum` is needed by
the claims; the reduced value at an output position aggregates every
input position that agrees with it outside the reduced dimensions. -/
def reduceSumData (st : Storage) (l : Layout) (sumDims : List Nat) : List Int :=
  let outDims := sumDims.foldl (fun acc i => acc.set i 1) l.dims
  let inp := materialize st.data l
  let rank := l.dims.length
  let agrees := fun (i j : List Nat) =>
    (List.range rank).all fun d => decide (d ∈ sumDims) || (i.getD d 0 == j.getD d 0)
  (allIndices outDims).map fun j =>
    (((allIndices l.dims).zip inp).filterMap fun p =>
      if agrees p.1 j then some p.2 else none).sum

def Storage.reduceSum (st : Storage) (l : Layout) (sumDims : List Nat) : M Storage := do
  M.emit (.reduceKernel "sum")
  M.pure ⟨reduceSumData st l sumDims, st.dtype, st.device⟩

/-- Modelled from the spec: the `index_select` kernel gathers, for each
output position, the source row selected by the 1-D index tensor along
`dim` (spec 4.2). -/
def Storage.indexSelect (ids self : Storage) (selfL idsL : Layout) (dim : Nat) :
    M Storage := do
  if self.device ≠ ids.device then
    M.throw (.deviceMismatchBinaryOp self.device ids.device "index-select")
  else do
    M.emit .indexSelectKernel
    let selfM := materialize self.data selfL
    let idsM := materialize ids.data idsL
    let len := idsM.length
    let outDims := selfL.dims.set dim len
    let out := (allIndices outDims).map fun idx =>
      let src := idx.set dim (idsM.getD (idx.getD dim 0) 0).toNat
      selfM.getD (flattenIdx selfL.dims src) 0
    M.pure ⟨out, self.dtype, self.device⟩

/-- Modelled from the spec: the `index_add` kernel accumulates each
source row into the target row selected by the 1-D index tensor along
`dim` (spec 4.2). -/
def Storage.indexAdd (self ids src : Storage) (selfL idsL srcL : Layout) (dim : Nat) :
    M Storage := do
  if self.device ≠ ids.device then
    M.throw (.deviceMismatchBinaryOp self.device ids.device "index-add")
  else if self.device ≠ src.device then
    M.throw (.deviceMismatchBinaryOp self.device src.device "index-add")
  else if self.dtype ≠ src.dtype then
    M.throw (.dtypeMismatchBinaryOp self.dtype src.dtype "index-add")
  else do
    M.emit .indexAddKernel
    let base := materialize self.data selfL
    let srcM := materialize src.data srcL
    let idsM := materialize ids.data idsL
    let out := ((allIndices srcL.dims).zip srcM).foldl (fun acc p =>
      let (v, x) := p
      let tgt := v.set dim (idsM.getD (v.getD dim 0) 0).toNat
      let pos := flattenIdx selfL.dims tgt
      acc.set pos (acc.getD pos 0 + x)) base
    M.pure ⟨out, self.dtype, self.device⟩

/-- Overwrite `dst` starting at `offset` with the elements of `src`. -/
def writeAt (dst : List Int) (offset : Nat) (src : List Int) : List Int :=
  dst.take offset ++ src ++ dst.drop (offset + src.length)

/-- Modelled from the spec: `copy_strided_src` copies one tensor's
logical contents, respecting its layout, into an offset of a
destination's contiguous buffer (spec 4.2); the mutation targets only the
destination storage. -/
def Storage.copyStridedSrc (src : Storage) (dst : Storage) (dstOffset : Nat)
    (srcL : Layout) : M Storage := do
  M.emit .copyKernel
  M.pure { dst with data := writeAt dst.data dstOffset (materialize src.data srcL) }

/-! ## Tensors

The `Op` recorder of the source stores shared references to the operand
tensors; the embedding records operand tensor ids instead (the claims
under study inspect only the presence and the tag of the edge, never the
payload tensors). -/

/-- The graph edge recorded for backward replay (`Op` in `op.rs`),
restricted to the variants produced by the operations under study;
operand tensors are recorded by id. -/
inductive Op where
  | unary (arg : Nat) (name : String)
  | binary (lhs rhs : Nat) (name : String)
  | narrow (arg : Nat) (dim start len : Nat)
  | transpose (arg : Nat) (d1 d2 : Nat)
  | broadcast (arg : Nat)
  | reduce (arg : Nat) (name : String) (dims : List Nat)
  | reshape (arg : Nat)
  | matmul (lhs rhs : Nat)
  | indexSelect (lhs rhs : Nat) (dim : Nat)
  | indexAdd (t1 t2 t3 : Nat) (dim : Nat)
  | cat (args : List Nat) (dim : Nat)
  | copy (arg : Nat)
  deriving DecidableEq, Repr

/-- `Tensor_`: id, shared storage, immutable layout, optional graph edge,
variable flag, dtype and device tags. -/
structure Tensor where
  id : Nat
  storage : Storage
  layout : Layout
  op : Option Op
  isVariable : Bool
  dtype : DType
  device : Device
  deriving DecidableEq, Repr

namespace Tensor

/-- `Tensor::shape` (the dimension list of the layout's shape). -/
def dims (t : Tensor) : List Nat := t.layout.dims

/-- `Tensor::rank`. -/
def rank (t : Tensor) : Nat := t.dims.length

/-- `Tensor::elem_count`. -/
def elem_count (t : Tensor) : Nat := elemCount t.dims

/-- `Tensor::is_contiguous`. -/
def is_contiguous (t : Tensor) : Bool := t.layout.isContiguous

/-- `Tensor::track_op`: true iff the tensor is a variable or carries an
op edge. -/
def track_op (t : Tensor) : Bool := t.isVariable || t.op.isSome

end Tensor

/-- Modelled from the spec: `BackpropOp::none` (spec 3, `Op` is "absent
when the producing call requested no gradient tracking"). -/
def BackpropOp.none : Option Op := Option.none

/-- Modelled from the spec: `BackpropOp::new1` attaches the edge iff the
operand is tracked. -/
def BackpropOp.new1 (t : Tensor) (f : Nat → Op) : Option Op :=
  if t.track_op then some (f t.id) else Option.none

/-- Modelled from the spec: `BackpropOp::new2` attaches the edge iff
either operand is tracked. -/
def BackpropOp.new2 (t1 t2 : Tensor) (f : Nat → Nat → Op) : Option Op :=
  if t1.track_op || t2.track_op then some (f t1.id t2.id) else Option.none

/-- Modelled from the spec: `BackpropOp::new3`. -/
def BackpropOp.new3 (t1 t2 t3 : Tensor) (f : Nat → Nat → Nat → Op) : Option Op :=
  if t1.track_op || t2.track_op || t3.track_op then some (f t1.id t2.id t3.id)
  else Option.none

/-- Modelled from the spec: `BackpropOp::new` over an argument list. -/
def BackpropOp.newN (args : List Tensor) (f : List Nat → Op) : Option Op :=
  if args.any Tensor.track_op then some (f (args.map Tensor.id)) else Option.none

/-- `from_storage`: wrap a storage and a shape into a fresh tensor with
contiguous strides. -/
def fromStorage (storage : Storage) (shape : List Nat) (op : Option Op)
    (isVariable : Bool) : M Tensor := do
  let id ← M.freshId
  M.pure ⟨id, storage, Layout.contiguous shape, op, isVariable, storage.dtype, storage.device⟩

namespace Tensor

/-- `Tensor::check_dim`: `dim` must be smaller than the rank. -/
def check_dim (t : Tensor) (dim : Nat) (op : String) : Except Err Unit :=
  if dim ≥ t.dims.length then .error (.dimOutOfRange t.dims dim op) else .ok ()

/-- `Tensor::same_shape_binary_op`: exact shape equality, otherwise a
shape mismatch naming the operation. -/
def same_shape_binary_op (t rhs : Tensor) (op : String) : Except Err (List Nat) :=
  if t.dims ≠ rhs.dims then .error (.shapeMismatchBinaryOp t.dims rhs.dims op)
  else .ok t.dims

/-- `Tensor::broadcast_as`: pure layout broadcast sharing the storage. -/
def broadcast_as (t : Tensor) (shape : List Nat) : M Tensor := do
  let layout ← M.ofExcept (t.layout.broadcastAs shape)
  let id ← M.freshId
  M.pure ⟨id, t.storage, layout, BackpropOp.new1 t Op.broadcast, false, t.dtype, t.device⟩

/-- `Tensor::zeros_impl`: a variable allocates a full buffer; otherwise a
single scalar zero is allocated and broadcast (stride 0) to the shape. -/
def zeros_impl (shape : List Nat) (dtype : DType) (device : Device)
    (isVariable : Bool) : M Tensor := do
  if isVariable then do
    let storage ← device.zeros shape dtype
    fromStorage storage shape BackpropOp.none isVariable
  else do
    let storage ← device.zeros [] dtype
    let t ← fromStorage storage [] BackpropOp.none isVariable
    t.broadcast_as shape

/-- `Tensor::zeros`. -/
def zeros (shape : List Nat) (dtype : DType) (device : Device) : M Tensor :=
  zeros_impl shape dtype device false

/-- `Tensor::ones_impl`. -/
def ones_impl (shape : List Nat) (dtype : DType) (device : Device)
    (isVariable : Bool) : M Tensor := do
  if isVariable then do
    let storage ← device.ones shape dtype
    fromStorage storage shape BackpropOp.none isVariable
  else do
    let storage ← device.ones [] dtype
    let t ← fromStorage storage [] BackpropOp.none isVariable
    t.broadcast_as shape

/-- `Tensor::ones`. -/
def ones (shape : List Nat) (dtype : DType) (device : Device) : M Tensor :=
  ones_impl shape dtype device false

/-- `Tensor::add` (one instance of the `binary_op!` family): exact shape
check, backend binary kernel, fresh tensor with an optional edge. -/
def add (t rhs : Tensor) : M Tensor := do
  let shape ← M.ofExcept (t.same_shape_binary_op rhs "add")
  let storage ← Storage.binaryImpl "add" (· + ·) t.storage rhs.storage t.layout rhs.layout
  let op := BackpropOp.new2 t rhs (fun a b => Op.binary a b "add")
  fromStorage storage shape op false

/-- `Tensor::broadcast_add` (one instance of the `broadcast_binary_op!`
family): compute the common broadcast shape, insert zero-copy broadcast
views on whichever operand needs one, then delegate to `add`. -/
def broadcast_add (t rhs : Tensor) : M Tensor := do
  let shape ← M.ofExcept (broadcastShapeBinaryOp t.dims rhs.dims "broadcast_add")
  match decide (shape ≠ t.dims), decide (shape ≠ rhs.dims) with
  | true, true => do
    let lb ← t.broadcast_as shape
    let rb ← rhs.broadcast_as shape
    lb.add rb
  | false, true => do
    let rb ← rhs.broadcast_as shape
    t.add rb
  | true, false => do
    let lb ← t.broadcast_as shape
    lb.add rhs
  | false, false => t.add rhs

/-- `Tensor::narrow`: validate the range, return a clone when the range
covers the whole dimension, otherwise a new view sharing the storage. -/
def narrow (t : Tensor) (dim start len : Nat) : M Tensor := do
  let dims := t.dims
  let dim ← M.ofExcept (dimToIndex dim t.dims "narrow")
  if start + len > dims.getD dim 0 then
    M.throw (.narrowInvalidArgs t.dims dim start len "start + len > dim_len")
  else if start = 0 ∧ dims.getD dim 0 = len then
    M.pure t
  else do
    let op := BackpropOp.new1 t (fun a => Op.narrow a dim start len)
    let layout ← M.ofExcept (t.layout.narrow dim start len)
    let id ← M.freshId
    M.pure ⟨id, t.storage, layout, op, false, t.dtype, t.device⟩

/-- `Tensor::reshape`: element counts must match; a contiguous input is
reshaped as a view, otherwise the data is copied into a fresh contiguous
buffer. -/
def reshape (t : Tensor) (shape : List Nat) : M Tensor := do
  if elemCount shape ≠ t.elem_count then
    M.throw (.shapeMismatchBinaryOp t.dims shape "reshape")
  else
    let op := BackpropOp.new1 t Op.reshape
    if t.is_contiguous then do
      let id ← M.freshId
      M.pure ⟨id, t.storage, Layout.contiguousWithOffset shape t.layout.startOffset,
        op, false, t.dtype, t.device⟩
    else do
      let storage ← t.device.zeros shape t.dtype
      let storage ← Storage.copyStridedSrc t.storage storage 0 t.layout
      fromStorage storage shape op false

/-- `Tensor::squeeze`: drop the dimension when it has size 1, otherwise
return the tensor unchanged (PyTorch semantics). -/
def squeeze (t : Tensor) (dim : Nat) : M Tensor := do
  let dims := t.dims
  let dim ← M.ofExcept (dimToIndex dim t.dims "squeeze")
  if dims.getD dim 0 = 1 then
    t.reshape (dims.eraseIdx dim)
  else
    M.pure t

/-- `Tensor::squeeze_dims`: no axis is a no-op, one axis uses the
dedicated squeeze, several axes are collapsed by a single reshape that
filters the listed dimension indices out. -/
def squeeze_dims (t : Tensor) (dims : List Nat) : M Tensor :=
  match dims with
  | [] => M.pure t
  | [i] => t.squeeze i
  | ds => t.reshape ((t.dims.enum.filter fun p => decide (p.1 ∉ ds)).map Prod.snd)

/-- `Tensor::sum_impl`: resolve the dimension set, run the reduction
kernel, set each reduced dimension to 1, then either keep the dimensions
or squeeze them. -/
def sum_impl (t : Tensor) (sumDims : List Nat) (keepdim : Bool) : M Tensor := do
  let sumDims ← M.ofExcept (dimsToIndexes sumDims t.dims "sum")
  let storage ← Storage.reduceSum t.storage t.layout sumDims
  let dims := sumDims.foldl (fun acc i => acc.set i 1) t.dims
  let op := BackpropOp.new1 t (fun a => Op.reduce a "sum" dims)
  let sum ← fromStorage storage dims op false
  if keepdim then M.pure sum else sum.squeeze_dims sumDims

/-- `Tensor::sum_keepdim`. -/
def sum_keepdim (t : Tensor) (sumDims : List Nat) : M Tensor :=
  t.sum_impl sumDims true

/-- `Tensor::sum`. -/
def sum (t : Tensor) (sumDims : List Nat) : M Tensor :=
  t.sum_impl sumDims false

/-- `Tensor::matmul`: both operands must have the same rank ≥ 2, the
products of the leading (batch) dimensions must agree and the inner
dimensions must match; then the backend matmul kernel runs. -/
def matmul (t rhs : Tensor) : M Tensor := do
  let aDims := t.dims
  let bDims := rhs.dims
  let dim := aDims.length
  if dim < 2 ∨ bDims.length ≠ dim then
    M.throw (.shapeMismatchBinaryOp t.dims rhs.dims "matmul")
  else
    let m := aDims.getD (dim - 2) 0
    let k := aDims.getD (dim - 1) 0
    let k2 := bDims.getD (dim - 2) 0
    let n := bDims.getD (dim - 1) 0
    let cShape := aDims.take (dim - 2) ++ [m, n]
    let batching := (aDims.take (dim - 2)).prod
    let batchingB := (bDims.take (dim - 2)).prod
    if k ≠ k2 ∨ batching ≠ batchingB then
      M.throw (.shapeMismatchBinaryOp t.dims rhs.dims "matmul")
    else do
      let storage ← Storage.matmulKernel t.storage rhs.storage (batching, m, n, k)
        t.layout rhs.layout
      let op := BackpropOp.new2 t rhs Op.matmul
      fromStorage storage cShape op false

/-- `Tensor::transpose`: validate both dimension indices, then swap them
in the layout; the storage is shared. -/
def transpose (t : Tensor) (dim1 dim2 : Nat) : M Tensor := do
  let dim1 ← M.ofExcept (dimToIndex dim1 t.dims "transpose")
  let dim2 ← M.ofExcept (dimToIndex dim2 t.dims "transpose")
  let op := BackpropOp.new1 t (fun a => Op.transpose a dim1 dim2)
  let layout ← M.ofExcept (t.layout.transpose dim1 dim2)
  let id ← M.freshId
  M.pure ⟨id, t.storage, layout, op, false, t.dtype, t.device⟩

/-- Modelled from the spec: `Shape::dims1` returns the single dimension
of a rank-1 shape and an unexpected-rank error otherwise (spec 7,
"UnexpectedRank"). -/
def dims1 (t : Tensor) : Except Err Nat :=
  match t.dims with
  | [l] => .ok l
  | _ => .error (.unexpectedNumberOfDims 1 t.dims.length t.dims)

/-- `Tensor::index_select`: the index tensor must be 1-D (its length is
otherwise unconstrained); the output replaces the selected dimension's
size by the index length. -/
def index_select (t ids : Tensor) (dim : Nat) : M Tensor := do
  let dim ← M.ofExcept (dimToIndex dim t.dims "index-select")
  let indexesLen ← match ids.dims with
    | [l] => M.pure l
    | _ => M.throw (.shapeMismatchBinaryOp t.dims ids.dims "index-select")
  let storage ← Storage.indexSelect ids.storage t.storage t.layout ids.layout dim
  let dims := t.dims.set dim indexesLen
  let op := BackpropOp.new2 t ids (fun a b => Op.indexSelect a b dim)
  fromStorage storage dims op false

/-- `Tensor::index_add`: source and target must agree on every dimension
except `dim`, the index tensor must be 1-D, and its length must equal the
source's size along `dim`. -/
def index_add (t ids src : Tensor) (dim : Nat) : M Tensor := do
  let dim ← M.ofExcept (dimToIndex dim t.dims "index-add")
  let sourceDims := src.dims
  let selfDims := t.dims
  let mismatch :=
    if sourceDims.length ≠ selfDims.length then true
    else ((selfDims.zip sourceDims).enum.any fun p =>
      decide (p.1 ≠ dim ∧ p.2.1 ≠ p.2.2))
  if mismatch then
    M.throw (.shapeMismatchBinaryOp t.dims src.dims "index-add (self, source)")
  else do
    let indexesLen ← M.ofExcept ids.dims1
    if sourceDims.getD dim 0 ≠ indexesLen then
      M.throw (.shapeMismatchBinaryOp ids.dims src.dims "index-add (ids, source))")
    else do
      let storage ← Storage.indexAdd t.storage ids.storage src.storage
        t.layout ids.layout src.layout dim
      let op := BackpropOp.new3 t ids src (fun a b c => Op.indexAdd a b c dim)
      fromStorage storage t.dims op false

end Tensor

/-- The inner per-dimension loop of `cat0`'s validation: every dimension
other than the concatenation axis 0 must agree with the first operand. -/
def catDimsCheck (firstShape nthShape : List Nat) (n : Nat) :
    List (Nat × Nat) → Nat → Except Err Unit
  | [], _ => .ok ()
  | (v1, v2) :: rest, dimIdx =>
    if dimIdx ≠ 0 ∧ v1 ≠ v2 then
      .error (.shapeMismatchCat dimIdx firstShape n nthShape)
    else catDimsCheck firstShape nthShape n rest (dimIdx + 1)

/-- The per-operand validation loop of `cat0`: dtype, device and rank
must match the first operand, and all dimensions but axis 0 must agree.
The error for the `n`-th operand reports `n = arg_idx + 1`. -/
def catValidateArgs (arg0 : Tensor) (rank : Nat) (dtype : DType) (device : Device) :
    List Tensor → Nat → Except Err Unit
  | [], _ => .ok ()
  | arg :: rest, argIdx =>
    if arg.dtype ≠ dtype then
      .error (.dtypeMismatchBinaryOp dtype arg.dtype "cat")
    else if arg.device ≠ device then
      .error (.deviceMismatchBinaryOp device arg.device "cat")
    else if rank ≠ arg.rank then
      .error (.unexpectedNumberOfDims rank arg.rank arg.dims)
    else do
      catDimsCheck arg0.dims arg.dims (argIdx + 1) (arg0.dims.zip arg.dims) 0
      catValidateArgs arg0 rank dtype device rest (argIdx + 1)

namespace Tensor

/-- `Tensor::cat0`: concatenation along axis 0. All validation happens
in the loop before the destination buffer is allocated; then one strided
copy per operand writes into the freshly allocated destination at its
offset. (The source's `cat_dims[0] = 0` indexing presupposes rank ≥ 1,
which the caller `cat` ensures via `check_dim`.) -/
def cat0 (args : List Tensor) : M Tensor :=
  match args with
  | [] => M.throw (.opRequiresAtLeastOneTensor "cat")
  | arg0 :: rest =>
    if rest.isEmpty then M.pure arg0
    else do
      let rank := arg0.rank
      let device := arg0.device
      let dtype := arg0.dtype
      let firstDims := arg0.dims
      M.ofExcept (catValidateArgs arg0 rank dtype device (arg0 :: rest) 0)
      let catDims :=
        firstDims.set 0 ((arg0 :: rest).foldl (fun acc a => acc + a.dims.headD 0) 0)
      let offsets := ((arg0 :: rest).map Tensor.elem_count).scanl (· + ·) 0
      let shape := catDims
      let op := BackpropOp.newN (arg0 :: rest) (fun ids => Op.cat ids 0)
      let storage ← device.zeros shape dtype
      let storage ← ((arg0 :: rest).zip offsets).foldlM (fun dst p =>
        Storage.copyStridedSrc p.1.storage dst p.2 p.1.layout) storage
      fromStorage storage shape op false

/-- `Tensor::cat`: an empty list is rejected; a singleton list returns a
clone of its only element before any validation; otherwise the axis is
validated against every operand, axis-0 concatenation is the primitive,
and any other axis is handled by transposing it to axis 0 and back. -/
def cat (args : List Tensor) (dim : Nat) : M Tensor :=
  match args with
  | [] => M.throw (.opRequiresAtLeastOneTensor "cat")
  | arg0 :: rest =>
    if rest.isEmpty then M.pure arg0
    else do
      let dim ← M.ofExcept (dimToIndex dim arg0.dims "cat")
      M.ofExcept ((arg0 :: rest).forM fun a => a.check_dim dim "cat")
      if dim = 0 then cat0 (arg0 :: rest)
      else do
        let targs ← (arg0 :: rest).mapM (fun a => a.transpose 0 dim)
        let c ← cat0 targs
        c.transpose 0 dim

/-- The materialized values of a tensor: its logical contents read
through its layout in row-major logical order (what `to_vec*` returns,
flattened). -/
def materialized (t : Tensor) : List Int := materialize t.storage.data t.layout

end Tensor

/-! ## Spec-side shape expressions

These definitions follow the words of the specification and of the
claims, to be compared with what the code computes. -/

/-- Spec wording for `sum`'s output: the input shape with every
dimension whose index lies in `S` removed. -/
def specShapeSqueezed (dims : List Nat) (S : List Nat) : List Nat :=
  (dims.enum.filter fun p => decide (p.1 ∉ S)).map Prod.snd

/-- Spec wording for `sum_keepdim`'s output: the input shape with every
dimension whose index lies in `S` set to 1. -/
def specShapeKept (dims : List Nat) (S : List Nat) : List Nat :=
  dims.enum.map fun p => if p.1 ∈ S then 1 else p.2

/-- The shape condition `matmul` actually enforces: equal ranks ≥ 2,
equal products of the leading (batch) dimensions, and a's last dimension
matching b's second-to-last. -/
def matmulShapeOk (a b : Tensor) : Prop :=
  2 ≤ a.rank ∧ b.rank = a.rank ∧
  (a.dims.take (a.rank - 2)).prod = (b.dims.take (a.rank - 2)).prod ∧
  a.dims.getD (a.rank - 1) 0 = b.dims.getD (a.rank - 2) 0

instance (a b : Tensor) : Decidable (matmulShapeOk a b) := by
  unfold matmulShapeOk; infer_instance

/-- The number of distinct storage elements reachable through a layout:
the distinct linear offsets visited by `strided_index`. -/
def reachableStorageCount (t : Tensor) : Nat :=
  t.layout.stridedOffsets.dedup.length

/-- Every logical position of the tensor reads inside its storage
buffer. -/
def inBounds (t : Tensor) : Prop :=
  ∀ idx ∈ allIndices t.layout.dims, t.layout.offsetOf idx < t.storage.data.length

instance (t : Tensor) : Decidable (inBounds t) := by
  unfold inBounds; infer_instance

/-- A layout is well-formed when it carries one stride per dimension. -/
def Layout.wf (l : Layout) : Prop := l.stride.length = l.dims.length

instance (l : Layout) : Decidable l.wf := by
  unfold Layout.wf; infer_instance

/-! ## Sample tensors used by witnesses and counterexamples -/

/-- A contiguous 2×3 `f32` CPU tensor holding `0..6`. -/
def sampleT23 : Tensor :=
  ⟨0, ⟨[0, 1, 2, 3, 4, 5], .f32, .cpu⟩, Layout.contiguous [2, 3], Option.none, false, .f32, .cpu⟩

/-- A contiguous 3×2 `f32` CPU tensor holding six ones. -/
def sampleT32 : Tensor :=
  ⟨1, ⟨[1, 1, 1, 1, 1, 1], .f32, .cpu⟩, Layout.contiguous [3, 2], Option.none, false, .f32, .cpu⟩

/-- A contiguous `(2,3,1,1)` `f32` CPU tensor of ones. -/
def sampleT23b : Tensor :=
  ⟨2, ⟨[1, 1, 1, 1, 1, 1], .f32, .cpu⟩, Layout.contiguous [2, 3, 1, 1], Option.none, false,
    .f32, .cpu⟩

/-- A contiguous `(3,2,1,1)` `f32` CPU tensor of ones. -/
def sampleT32b : Tensor :=
  ⟨3, ⟨[1, 1, 1, 1, 1, 1], .f32, .cpu⟩, Layout.contiguous [3, 2, 1, 1], Option.none, false,
    .f32, .cpu⟩

/-- A contiguous 1-D `f32` CPU tensor with 3 entries. -/
def sampleVec3 : Tensor :=
  ⟨4, ⟨[10, 20, 30], .f32, .cpu⟩, Layout.contiguous [3], Option.none, false, .f32, .cpu⟩

/-- A 1-D index tensor of length 2 (`u32` ids). -/
def sampleIds2 : Tensor :=
  ⟨5, ⟨[2, 0], .u32, .cpu⟩, Layout.contiguous [2], Option.none, false, .u32, .cpu⟩

/-- A contiguous `(3,2)` `f32` CPU tensor of zeros (an `index_add`
target). -/
def sampleSelf32 : Tensor :=
  ⟨8, ⟨[0, 0, 0, 0, 0, 0], .f32, .cpu⟩, Layout.contiguous [3, 2], Option.none, false,
    .f32, .cpu⟩

/-- A contiguous `(2,2)` `f32` CPU tensor (an `index_add` source). -/
def sampleSrc22 : Tensor :=
  ⟨9, ⟨[1, 2, 3, 4], .f32, .cpu⟩, Layout.contiguous [2, 2], Option.none, false, .f32, .cpu⟩

/-- The broadcast of `sampleT23` to shape `[4,2,3]` (stride 0 on the new
leading axis). -/
def sampleBroadcast423 : Tensor :=
  ⟨7, ⟨[0, 1, 2, 3, 4, 5], .f32, .cpu⟩, ⟨[4, 2, 3], [0, 3, 1], 0⟩, Option.none, false,
    .f32, .cpu⟩

/-! ## Helper lemmas on lists -/

theorem setSelf (l : List Nat) (i : Nat) (h : i < l.length) :
    l.set i (l.getD i 0) = l := by
  induction l generalizing i with
  | nil => simp at h
  | cons a t ih =>
    cases i with
    | zero => simp
    | succ j =>
      simp only [List.set_cons_succ, List.getD_cons_succ, List.cons.injEq, true_and]
      exact ih j (by simpa using h)

/-! ## C9: `cat` on a singleton list -/

/-- Claim C9: for every tensor `t` and every dim argument `d`,
`Tensor::cat(&[t], d)` succeeds and returns a clone of `t` without
validating `d`: no dtype, device, shape or axis check runs (the call
succeeds even when `d ≥ t.rank`), and the state (id counter and backend
trace) is untouched. -/
theorem claim_C9_cat_singleton_clone (t : Tensor) (d : Nat) (s : St) :
    Tensor.cat [t] d s = (.ok t, s) := rfl

/-! ## C10: `narrow` over the full dimension -/

/-- Claim C10: for every tensor `t` and an in-range `dim`,
`t.narrow(dim, 0, len)` with `len` the full size of that dimension
returns the very same tensor handle — same id, layout, storage and op
edge — without allocating a fresh id or constructing a `Narrow` view. -/
theorem claim_C10_narrow_full_is_clone (t : Tensor) (dim len : Nat) (s : St)
    (hdim : dim < t.rank) (hlen : t.dims.getD dim 0 = len) :
    Tensor.narrow t dim 0 len s = (.ok t, s) := by
  have hnot : ¬ dim ≥ t.dims.length := Nat.not_le.mpr hdim
  subst hlen
  simp [Tensor.narrow, dimToIndex, hnot, M.bind, M.ofExcept, M.pure]

/-- Witness for C10 at a concrete tensor. -/
theorem claim_C10_witness :
    Tensor.narrow sampleT23 0 0 2 ⟨5, []⟩ = (.ok sampleT23, ⟨5, []⟩) :=
  claim_C10_narrow_full_is_clone sampleT23 0 2 ⟨5, []⟩ (by decide) (by decide)

/-! ## C5: the `narrow` range check -/

/-- Claim C5: for every tensor and in-range dimension index, `narrow`
fails with a range error exactly when `start + len` exceeds the
dimension's size; on success the shape only replaces that dimension's
size by `len` and the result shares the input's storage. The input
tensor itself is a value the operation never modifies (all embedded
operations are functions of the input). -/
theorem M.bind_ofExcept_ok (a : α) (f : α → M β) (s : St) :
    M.bind (M.ofExcept (.ok a)) f s = f a s := rfl

theorem M.bind_ofExcept_error (e : Err) (f : α → M β) (s : St) :
    M.bind (M.ofExcept (.error e)) f s = (.error e, s) := rfl

theorem M.bind_pure_arg (a : α) (f : α → M β) (s : St) :
    M.bind (M.pure a) f s = f a s := rfl

theorem M.bind_throw (e : Err) (f : α → M β) (s : St) :
    M.bind (M.throw e) f s = (.error e, s) := rfl

theorem M.bind_freshId (f : Nat → M β) (s : St) :
    M.bind M.freshId f s = f s.nextId { s with nextId := s.nextId + 1 } := rfl

theorem M.bind_emit (ev : BEvent) (f : Unit → M β) (s : St) :
    M.bind (M.emit ev) f s = f () { s with trace := s.trace ++ [ev] } := rfl

theorem M.bind_assoc (x : M α) (f : α → M β) (g : β → M γ) :
    M.bind (M.bind x f) g = M.bind x (fun a => M.bind (f a) g) := by
  funext s
  unfold M.bind
  rcases hx : x s with ⟨r, s'⟩
  cases r <;> simp [hx]

theorem M.id_map_thm (x : M α) : id <$> x = x := by
  funext s
  show M.bind x (fun a => M.pure (id a)) s = x s
  rcases hx : x s with ⟨r, s1⟩
  cases r with
  | error e => rw [M.bind_apply_error _ _ _ _ _ hx]
  | ok a =>
    rw [M.bind_apply_ok _ _ _ _ _ hx]
    rfl

theorem M.pure_bind_thm (a : α) (f : α → M β) : pure a >>= f = f a := by
  funext s
  exact M.bind_pure_arg a f s

theorem M.bind_assoc_thm (x : M α) (f : α → M β) (g : β → M γ) :
    x >>= f >>= g = x >>= fun a => f a >>= g := M.bind_assoc x f g

instance : LawfulMonad M := LawfulMonad.mk' M M.id_map_thm M.pure_bind_thm M.bind_assoc_thm

theorem claim_C5_narrow_range_error (t : Tensor) (dim start len : Nat) (s : St)
    (hdim : dim < t.rank) :
    (start + len > t.dims.getD dim 0 →
      Tensor.narrow t dim start len s =
        (.error (.narrowInvalidArgs t.dims dim start len "start + len > dim_len"), s)) ∧
    (start + len ≤ t.dims.getD dim 0 →
      ∃ t' s', Tensor.narrow t dim start len s = (.ok t', s') ∧
        t'.dims = t.dims.set dim len ∧ t'.storage = t.storage) := by
  have hnot : ¬ dim ≥ t.dims.length := Nat.not_le.mpr hdim
  constructor
  · intro h
    simp only [Tensor.narrow, M.bind_eq, M.pure_eq, dimToIndex]
    rw [if_neg hnot, M.bind_ofExcept_ok, if_pos h]
    rfl
  · intro h
    have hno : ¬ start + len > t.dims.getD dim 0 := Nat.not_lt.mpr h
    by_cases hc : start = 0 ∧ t.dims.getD dim 0 = len
    · refine ⟨t, s, ?_, ?_, rfl⟩
      · obtain ⟨h0, hfull⟩ := hc
        subst h0
        exact claim_C10_narrow_full_is_clone t dim len s hdim hfull
      · rw [← hc.2, setSelf t.dims dim hdim]
    · have hnot' : ¬ dim ≥ t.layout.dims.length := hnot
      have hno' : ¬ start + len > t.layout.dims.getD dim 0 := hno
      have hlay : t.layout.narrow dim start len =
          .ok ⟨t.layout.dims.set dim len, t.layout.stride,
            t.layout.startOffset + t.layout.stride.getD dim 0 * start⟩ := by
        unfold Layout.narrow
        rw [if_neg hnot', if_neg hno']
      refine ⟨⟨s.nextId, t.storage,
        ⟨t.layout.dims.set dim len, t.layout.stride,
          t.layout.startOffset + t.layout.stride.getD dim 0 * start⟩,
        BackpropOp.new1 t (fun a => Op.narrow a dim start len), false, t.dtype, t.device⟩,
        { s with nextId := s.nextId + 1 }, ?_, rfl, rfl⟩
      simp only [Tensor.narrow, M.bind_eq, M.pure_eq, dimToIndex]
      rw [if_neg hnot, M.bind_ofExcept_ok, if_neg hno, if_neg hc, hlay,
        M.bind_ofExcept_ok, M.bind_freshId]
      rfl

/-- Witness for C5 at a concrete tensor: narrowing `[2,3]` to one row. -/
theorem claim_C5_witness :
    (2 + 3 > sampleT23.dims.getD 0 0 →
      Tensor.narrow sampleT23 0 2 3 ⟨5, []⟩ =
        (.error (.narrowInvalidArgs sampleT23.dims 0 2 3 "start + len > dim_len"), ⟨5, []⟩)) ∧
    (2 + 3 ≤ sampleT23.dims.getD 0 0 →
      ∃ t' s', Tensor.narrow sampleT23 0 2 3 ⟨5, []⟩ = (.ok t', s') ∧
        t'.dims = sampleT23.dims.set 0 3 ∧ t'.storage = sampleT23.storage) :=
  claim_C5_narrow_range_error sampleT23 0 2 3 ⟨5, []⟩ (by decide)

/-! ## C7: `transpose` is an involution -/

theorem length_swapIdx (l : List Nat) (i j : Nat) : (swapIdx l i j).length = l.length := by
  simp [swapIdx]

theorem getD_eq_getElem (l : List Nat) (i : Nat) (h : i < l.length) :
    l.getD i 0 = l[i] := by
  simp [List.getD_eq_getElem?_getD, List.getElem?_eq_getElem h]

theorem getElem?_swapIdx (l : List Nat) (i j n : Nat) (hi : i < l.length)
    (hj : j < l.length) :
    (swapIdx l i j)[n]? = if n = j then some l[i] else if n = i then some l[j] else l[n]? := by
  simp only [swapIdx, getD_eq_getElem _ _ hi, getD_eq_getElem _ _ hj]
  by_cases hnj : n = j
  · subst hnj
    simp [List.getElem?_set_self, List.length_set, hj]
  · by_cases hni : n = i
    · subst hni
      rw [List.getElem?_set_ne (Ne.symm hnj)]
      simp [List.getElem?_set_self, hi, hnj]
    · rw [List.getElem?_set_ne (Ne.symm hnj), List.getElem?_set_ne (Ne.symm hni)]
      simp [hni, hnj]

theorem swapIdx_swapIdx (l : List Nat) (i j : Nat) (hi : i < l.length) (hj : j < l.length) :
    swapIdx (swapIdx l i j) i j = l := by
  have hi' : i < (swapIdx l i j).length := by rw [length_swapIdx]; exact hi
  have hj' : j < (swapIdx l i j).length := by rw [length_swapIdx]; exact hj
  have hAi : (swapIdx l i j)[i]? = some (if i = j then l[i] else l[j]) := by
    rw [getElem?_swapIdx l i j i hi hj]
    by_cases h : i = j <;> simp [h]
  have hAj : (swapIdx l i j)[j]? = some l[i] := by
    rw [getElem?_swapIdx l i j j hi hj]; simp
  have hAiv : (swapIdx l i j)[i] = if i = j then l[i] else l[j] := by
    have := (List.getElem?_eq_getElem hi').symm.trans hAi
    exact Option.some.inj this
  have hAjv : (swapIdx l i j)[j] = l[i] := by
    have := (List.getElem?_eq_getElem hj').symm.trans hAj
    exact Option.some.inj this
  apply List.ext_getElem?
  intro n
  rw [getElem?_swapIdx (swapIdx l i j) i j n hi' hj']
  by_cases hnj : n = j
  · rw [if_pos hnj, hAiv, hnj, List.getElem?_eq_getElem hj]
    by_cases h : i = j <;> simp [h]
  · rw [if_neg hnj]
    by_cases hni : n = i
    · subst hni
      rw [if_pos rfl, hAjv, List.getElem?_eq_getElem hi]
    · rw [if_neg hni, getElem?_swapIdx l i j n hi hj, if_neg hnj, if_neg hni]

/-- Evaluation of `transpose` on in-range dimension indices. -/
theorem transpose_ok (t : Tensor) (d1 d2 : Nat) (s : St) (h1 : d1 < t.rank)
    (h2 : d2 < t.rank) :
    Tensor.transpose t d1 d2 s = (.ok ⟨s.nextId, t.storage,
      ⟨swapIdx t.layout.dims d1 d2, swapIdx t.layout.stride d1 d2, t.layout.startOffset⟩,
      BackpropOp.new1 t (fun a => Op.transpose a d1 d2), false, t.dtype, t.device⟩,
      { s with nextId := s.nextId + 1 }) := by
  have hn1 : ¬ d1 ≥ t.dims.length := Nat.not_le.mpr h1
  have hn2 : ¬ d2 ≥ t.dims.length := Nat.not_le.mpr h2
  have hcond : ¬ (t.layout.dims.length ≤ d1 ∨ t.layout.dims.length ≤ d2) := by
    push_neg
    exact ⟨h1, h2⟩
  have hlay : t.layout.transpose d1 d2 = .ok ⟨swapIdx t.layout.dims d1 d2,
      swapIdx t.layout.stride d1 d2, t.layout.startOffset⟩ := by
    unfold Layout.transpose
    rw [if_neg hcond]
  simp only [Tensor.transpose, M.bind_eq, M.pure_eq, dimToIndex]
  rw [if_neg hn1, M.bind_ofExcept_ok, if_neg hn2, M.bind_ofExcept_ok, hlay,
    M.bind_ofExcept_ok, M.bind_freshId]
  rfl

/-- Claim C7: for every tensor and in-range dimension indices `d1`, `d2`,
transposing twice with the same arguments succeeds and yields a tensor
with the same shape, the same materialized values, and the same shared
storage as the original. -/
theorem claim_C7_transpose_involution (t : Tensor) (d1 d2 : Nat) (s : St)
    (hwf : t.layout.wf) (h1 : d1 < t.rank) (h2 : d2 < t.rank) :
    ∃ t' s', M.bind (t.transpose d1 d2) (fun u => u.transpose d1 d2) s = (.ok t', s') ∧
      t'.dims = t.dims ∧ t'.materialized = t.materialized ∧ t'.storage = t.storage := by
  have hstep1 := transpose_ok t d1 d2 s h1 h2
  have hrd : t.rank = t.layout.dims.length := rfl
  have h1s : d1 < t.layout.stride.length := by rw [Layout.wf] at hwf; omega
  have h2s : d2 < t.layout.stride.length := by rw [Layout.wf] at hwf; omega
  have hdimsq : swapIdx (swapIdx t.layout.dims d1 d2) d1 d2 = t.layout.dims :=
    swapIdx_swapIdx _ _ _ (hrd ▸ h1) (hrd ▸ h2)
  have hstrq : swapIdx (swapIdx t.layout.stride d1 d2) d1 d2 = t.layout.stride :=
    swapIdx_swapIdx _ _ _ h1s h2s
  have h1' : d1 < (swapIdx t.layout.dims d1 d2).length := by
    rw [length_swapIdx]; exact hrd ▸ h1
  have h2' : d2 < (swapIdx t.layout.dims d1 d2).length := by
    rw [length_swapIdx]; exact hrd ▸ h2
  have hstep2 := transpose_ok ⟨s.nextId, t.storage,
    ⟨swapIdx t.layout.dims d1 d2, swapIdx t.layout.stride d1 d2, t.layout.startOffset⟩,
    BackpropOp.new1 t (fun a => Op.transpose a d1 d2), false, t.dtype, t.device⟩
    d1 d2 { s with nextId := s.nextId + 1 } h1' h2'
  have hrun := (M.bind_apply_ok _ (fun u => u.transpose d1 d2) _ _ _ hstep1).trans hstep2
  refine ⟨_, _, hrun, ?_, ?_, rfl⟩
  · exact hdimsq
  · show materialize t.storage.data
      ⟨swapIdx (swapIdx t.layout.dims d1 d2) d1 d2,
        swapIdx (swapIdx t.layout.stride d1 d2) d1 d2, t.layout.startOffset⟩ =
      materialize t.storage.data t.layout
    rw [hdimsq, hstrq]

/-- Witness for C7 at a concrete tensor. -/
theorem claim_C7_witness :
    ∃ t' s', M.bind (sampleT23.transpose 0 1) (fun u => u.transpose 0 1) ⟨3, []⟩ =
        (.ok t', s') ∧
      t'.dims = sampleT23.dims ∧ t'.materialized = sampleT23.materialized ∧
      t'.storage = sampleT23.storage :=
  claim_C7_transpose_involution sampleT23 0 1 ⟨3, []⟩ (by decide) (by decide) (by decide)

/-! ## C1: element count versus reachable storage -/

theorem length_allIndices (dims : List Nat) : (allIndices dims).length = dims.prod := by
  induction dims with
  | nil => rfl
  | cons d ds ih =>
    simp only [allIndices, List.flatMap, List.length_flatten, List.map_map]
    have : ((allIndices ds).map (d :: ·) |> List.length) = (allIndices ds).length := by
      simp
    simp only [Function.comp_def, List.length_map]
    rw [List.map_const', List.sum_replicate, List.length_range, smul_eq_mul, ih,
      List.prod_cons, Nat.mul_comm]

theorem mem_allIndices {dims idx : List Nat} :
    idx ∈ allIndices dims ↔ List.Forall₂ (· < ·) idx dims := by
  induction dims generalizing idx with
  | nil =>
    simp [allIndices, List.forall₂_nil_right_iff]
  | cons d ds ih =>
    simp only [allIndices, List.mem_flatMap, List.mem_map, List.mem_range,
      List.forall₂_cons_right_iff]
    constructor
    · rintro ⟨i, hi, tl, htl, rfl⟩
      exact ⟨i, tl, hi, ih.mp htl, rfl⟩
    · rintro ⟨i, tl, hi, htl, rfl⟩
      exact ⟨i, hi, tl, ih.mpr htl, rfl⟩

theorem zipWith_mul_replicate_zero (idx : List Nat) (n : Nat) :
    (List.zipWith (· * ·) idx (List.replicate n 0)).sum = 0 := by
  induction idx generalizing n with
  | nil => simp
  | cons a t ih =>
    cases n with
    | zero => simp
    | succ m => simp [List.replicate_succ, ih]

theorem broadcastAs_scalar (shape : List Nat) :
    Layout.broadcastAs ⟨[], [], 0⟩ shape = .ok ⟨shape, List.replicate shape.length 0, 0⟩ := by
  unfold Layout.broadcastAs
  rw [if_neg (by simp)]
  simp [bcastStrides]

/-- Evaluation of `Tensor::zeros` of the non-variable path: one scalar
zero is allocated and broadcast to the shape with all-zero strides. -/
theorem zeros_eval (shape : List Nat) (dtype : DType) (device : Device) (s : St) :
    Tensor.zeros shape dtype device s =
      (.ok ⟨s.nextId + 1, ⟨[0], dtype, device⟩,
        ⟨shape, List.replicate shape.length 0, 0⟩, Option.none, false, dtype, device⟩,
       ⟨s.nextId + 1 + 1, s.trace ++ [.alloc [] dtype]⟩) := by
  simp only [Tensor.zeros, Tensor.zeros_impl, Bool.false_eq_true, if_false, Device.zeros,
    fromStorage, Tensor.broadcast_as, M.bind_eq, M.pure_eq, M.bind_assoc, M.bind_emit,
    M.bind_pure_arg, M.bind_freshId, elemCount, List.prod_nil, List.replicate_one,
    Layout.contiguous, Layout.contiguousWithOffset, contiguousStride, broadcastAs_scalar,
    M.bind_ofExcept_ok]
  rfl

/-- Evaluation of `Tensor::ones` of the non-variable path. -/
theorem ones_eval (shape : List Nat) (dtype : DType) (device : Device) (s : St) :
    Tensor.ones shape dtype device s =
      (.ok ⟨s.nextId + 1, ⟨[1], dtype, device⟩,
        ⟨shape, List.replicate shape.length 0, 0⟩, Option.none, false, dtype, device⟩,
       ⟨s.nextId + 1 + 1, s.trace ++ [.alloc [] dtype]⟩) := by
  simp only [Tensor.ones, Tensor.ones_impl, Bool.false_eq_true, if_false, Device.ones,
    fromStorage, Tensor.broadcast_as, M.bind_eq, M.pure_eq, M.bind_assoc, M.bind_emit,
    M.bind_pure_arg, M.bind_freshId, elemCount, List.prod_nil, List.replicate_one,
    Layout.contiguous, Layout.contiguousWithOffset, contiguousStride, broadcastAs_scalar,
    M.bind_ofExcept_ok]
  rfl

/-- Counterexample to claim C1 as stated: `zeros((2,3))` produces a valid
tensor whose shape has 6 elements while only one storage element is
reachable through its (all-zero-stride) layout — the scalar the shape was
broadcast from. -/
theorem claim_C1_counterexample :
    ((Tensor.zeros [2, 3] .f32 .cpu ⟨1, []⟩).1.toOption.map fun t =>
      (t.elem_count, reachableStorageCount t)) = some (6, 1) := by decide

/-- The projected-source-index lemma for broadcast strides: every offset
contribution through the broadcast strides is realized by a valid source
index through the source strides. -/
theorem bcastStrides_offset (triples : List (Nat × Nat × Nat)) (r : List Nat)
    (h : bcastStrides triples = some r) (idx : List Nat)
    (hidx : List.Forall₂ (· < ·) idx (triples.map Prod.fst)) :
    ∃ jdx, List.Forall₂ (· < ·) jdx (triples.map (fun p => p.2.1)) ∧
      (List.zipWith (· * ·) jdx (triples.map (fun p => p.2.2))).sum =
        (List.zipWith (· * ·) idx r).sum := by
  induction triples generalizing r idx with
  | nil =>
    simp only [bcastStrides, Option.some.injEq] at h
    subst h
    simp only [List.map_nil, List.forall₂_nil_right_iff] at hidx
    subst hidx
    exact ⟨[], List.Forall₂.nil, rfl⟩
  | cons trip rest ih =>
    obtain ⟨dst, src, st⟩ := trip
    simp only [List.map_cons, List.forall₂_cons_right_iff] at hidx
    obtain ⟨i, tl, hi, htl, rfl⟩ := hidx
    by_cases hds : dst = src
    · cases hrest : bcastStrides rest with
      | none => simp [bcastStrides, hds, hrest] at h
      | some r' =>
        simp [bcastStrides, hds, hrest] at h
        subst h
        obtain ⟨jdx, hj, hsum⟩ := ih r' hrest tl htl
        refine ⟨i :: jdx, List.Forall₂.cons (hds ▸ hi) hj, ?_⟩
        simp [hsum]
    · by_cases hsrc : src = 1
      · have hds1 : ¬ dst = 1 := fun hh => hds (hh.trans hsrc.symm)
        cases hrest : bcastStrides rest with
        | none => simp [bcastStrides, hds1, hsrc, hrest] at h
        | some r' =>
          simp [bcastStrides, hds1, hsrc, hrest] at h
          subst h
          obtain ⟨jdx, hj, hsum⟩ := ih r' hrest tl htl
          refine ⟨0 :: jdx, List.Forall₂.cons (by simp [hsrc]) hj, ?_⟩
          simp [hsum, hsrc]
      · simp [bcastStrides, hds, hsrc] at h

/-- A successful `broadcast_as` preserves in-bounds reads and visits
exactly `elem_count(shape)` logical positions. -/
theorem broadcast_as_preserves (t : Tensor) (shape : List Nat) (t' : Tensor) (s s' : St)
    (hwf : t.layout.wf) (hb : inBounds t)
    (hrun : t.broadcast_as shape s = (.ok t', s')) :
    t'.layout.stridedOffsets.length = elemCount shape ∧ inBounds t' := by
  simp only [Tensor.broadcast_as, M.bind_eq, M.pure_eq] at hrun
  cases hE : t.layout.broadcastAs shape with
  | error e =>
    rw [hE, M.bind_ofExcept_error] at hrun
    simp at hrun
  | ok layout =>
    rw [hE, M.bind_ofExcept_ok, M.bind_freshId, M.pure_apply] at hrun
    simp only [Prod.mk.injEq, Except.ok.injEq] at hrun
    obtain ⟨ht', _⟩ := hrun
    subst ht'
    by_cases hlen : shape.length < t.layout.dims.length
    · rw [Layout.broadcastAs, if_pos hlen] at hE
      simp at hE
    · rw [Layout.broadcastAs, if_neg hlen] at hE
      cases hstq : bcastStrides ((shape.drop (shape.length - t.layout.dims.length)).zip
          (t.layout.dims.zip t.layout.stride)) with
      | none => rw [hstq] at hE; simp at hE
      | some st =>
        rw [hstq] at hE
        simp only [Except.ok.injEq] at hE
        subst hE
        constructor
        · simp [Layout.stridedOffsets, length_allIndices, elemCount]
        · intro idx hidx
          have hFor : List.Forall₂ (· < ·) idx shape := mem_allIndices.mp hidx
          have hlenidx : idx.length = shape.length := hFor.length_eq
          have hge : t.layout.dims.length ≤ shape.length := Nat.le_of_not_lt hlen
          have hdroplen : (shape.drop (shape.length - t.layout.dims.length)).length =
              t.layout.dims.length := by
            rw [List.length_drop]; omega
          have hziplen : (t.layout.dims.zip t.layout.stride).length =
              t.layout.dims.length := by
            rw [List.length_zip, hwf, Nat.min_self]
          have hmap1 : ((shape.drop (shape.length - t.layout.dims.length)).zip
              (t.layout.dims.zip t.layout.stride)).map Prod.fst =
              shape.drop (shape.length - t.layout.dims.length) :=
            List.map_fst_zip _ _ (by rw [hdroplen, hziplen])
          have hmap2 : ((shape.drop (shape.length - t.layout.dims.length)).zip
              (t.layout.dims.zip t.layout.stride)).map Prod.snd =
              t.layout.dims.zip t.layout.stride :=
            List.map_snd_zip _ _ (by rw [hdroplen, hziplen])
          have hmapd : ((shape.drop (shape.length - t.layout.dims.length)).zip
              (t.layout.dims.zip t.layout.stride)).map (fun p => p.2.1) = t.layout.dims := by
            have : (fun (p : Nat × Nat × Nat) => p.2.1) = Prod.fst ∘ Prod.snd := rfl
            rw [this, ← List.map_map, hmap2,
              List.map_fst_zip _ _ (le_of_eq hwf.symm)]
          have hmaps : ((shape.drop (shape.length - t.layout.dims.length)).zip
              (t.layout.dims.zip t.layout.stride)).map (fun p => p.2.2) =
              t.layout.stride := by
            have : (fun (p : Nat × Nat × Nat) => p.2.2) = Prod.snd ∘ Prod.snd := rfl
            rw [this, ← List.map_map, hmap2,
              List.map_snd_zip _ _ (le_of_eq hwf)]
          have hidx' : List.Forall₂ (· < ·)
              (idx.drop (shape.length - t.layout.dims.length))
              (((shape.drop (shape.length - t.layout.dims.length)).zip
                (t.layout.dims.zip t.layout.stride)).map Prod.fst) := by
            rw [hmap1]
            exact List.forall₂_drop _ hFor
          obtain ⟨jdx, hjF, hjsum⟩ := bcastStrides_offset _ st hstq _ hidx'
          rw [hmapd] at hjF
          rw [hmaps] at hjsum
          have hjmem : jdx ∈ allIndices t.layout.dims := mem_allIndices.mpr hjF
          have hoff := hb jdx hjmem
          have hsplit : idx = idx.take (shape.length - t.layout.dims.length) ++
              idx.drop (shape.length - t.layout.dims.length) :=
            (List.take_append_drop _ idx).symm
          have htklen : (idx.take (shape.length - t.layout.dims.length)).length =
              (List.replicate (shape.length - t.layout.dims.length) (0 : Nat)).length := by
            rw [List.length_take, List.length_replicate]
            omega
          show Layout.offsetOf ⟨shape, List.replicate (shape.length - t.layout.dims.length)
            0 ++ st, t.layout.startOffset⟩ idx < t.storage.data.length
          unfold Layout.offsetOf at hoff ⊢
          simp only at hoff ⊢
          calc t.layout.startOffset + (List.zipWith (· * ·) idx
                (List.replicate (shape.length - t.layout.dims.length) 0 ++ st)).sum
              = t.layout.startOffset +
                ((List.zipWith (· * ·) (idx.take (shape.length - t.layout.dims.length))
                  (List.replicate (shape.length - t.layout.dims.length) 0)).sum +
                 (List.zipWith (· * ·) (idx.drop (shape.length - t.layout.dims.length))
                  st).sum) := by
                conv_lhs => rw [hsplit]
                rw [List.zipWith_append _ _ _ _ _ htklen, List.sum_append]
            _ = t.layout.startOffset + (List.zipWith (· * ·) jdx t.layout.stride).sum := by
                rw [zipWith_mul_replicate_zero, hjsum]
                omega
            _ < t.storage.data.length := hoff

/-- Claim C1, amended: for tensors produced by the cited constructors and
by `broadcast_as`, the element count of the shape equals the number of
logical element positions visited through the layout, and every visited
position reads inside the storage buffer; but the number of distinct
reachable storage elements can be smaller — the non-variable `zeros` and
`ones` paths allocate a single scalar element and broadcast it to the
whole shape with stride 0. -/
theorem claim_C1_amended_reachability :
    (∀ shape dtype device s, ∃ t' s',
        Tensor.zeros shape dtype device s = (.ok t', s') ∧
        t'.layout.stridedOffsets.length = elemCount t'.dims ∧
        t'.dims = shape ∧ t'.storage.data.length = 1 ∧ inBounds t') ∧
    (∀ shape dtype device s, ∃ t' s',
        Tensor.ones shape dtype device s = (.ok t', s') ∧
        t'.layout.stridedOffsets.length = elemCount t'.dims ∧
        t'.dims = shape ∧ t'.storage.data.length = 1 ∧ inBounds t') ∧
    (∀ (t t' : Tensor) (shape : List Nat) (s s' : St), t.layout.wf → inBounds t →
        t.broadcast_as shape s = (.ok t', s') →
        t'.layout.stridedOffsets.length = elemCount shape ∧ inBounds t') := by
  refine ⟨?_, ?_, ?_⟩
  · intro shape dtype device s
    refine ⟨_, _, zeros_eval shape dtype device s, ?_, rfl, rfl, ?_⟩
    · simp [Layout.stridedOffsets, length_allIndices, elemCount, Tensor.dims]
    · intro idx _
      simp [Layout.offsetOf, zipWith_mul_replicate_zero]
  · intro shape dtype device s
    refine ⟨_, _, ones_eval shape dtype device s, ?_, rfl, rfl, ?_⟩
    · simp [Layout.stridedOffsets, length_allIndices, elemCount, Tensor.dims]
    · intro idx _
      simp [Layout.offsetOf, zipWith_mul_replicate_zero]
  · intro t t' shape s s' hwf hb hrun
    exact broadcast_as_preserves t shape t' s s' hwf hb hrun

/-- Witness for the amended C1 at a concrete broadcast. -/
theorem claim_C1_witness :
    sampleBroadcast423.layout.stridedOffsets.length = elemCount [4, 2, 3] ∧
      inBounds sampleBroadcast423 :=
  claim_C1_amended_reachability.2.2 sampleT23 sampleBroadcast423 [4, 2, 3] ⟨7, []⟩ ⟨8, []⟩
    (by decide) (by decide) (by decide)

/-! ## C2: the `matmul` shape check -/

/-- Counterexample to claim C2 as stated: `matmul` succeeds on operand
shapes `(2,3,1,1)` and `(3,2,1,1)` whose leading batch dimensions are not
identical — the code only compares the products of the batch dimensions
(6 = 6), not the dimensions themselves. -/
theorem claim_C2_counterexample :
    ((Tensor.matmul sampleT23b sampleT32b ⟨2, []⟩).1.isOk = true) ∧
      sampleT23b.dims.take (sampleT23b.rank - 2) ≠
        sampleT32b.dims.take (sampleT32b.rank - 2) := by decide

/-- Claim C2, amended: given matching dtype and device, `matmul` succeeds
exactly when both operands have the same rank r ≥ 2, the products of
their leading batch dimensions agree (identical batch dimensions are not
required), and a's last dimension equals b's second-to-last; any shape
violation yields a `ShapeMismatchBinaryOp` naming `matmul`. -/
theorem claim_C2_amended_matmul_check (a b : Tensor) (s : St)
    (hdt : a.storage.dtype = b.storage.dtype)
    (hdev : a.storage.device = b.storage.device) :
    ((Tensor.matmul a b s).1.isOk = true ↔ matmulShapeOk a b) ∧
    (¬ matmulShapeOk a b →
      (Tensor.matmul a b s).1 = .error (.shapeMismatchBinaryOp a.dims b.dims "matmul")) := by
  have hr : a.rank = a.dims.length := rfl
  have hrb : b.rank = b.dims.length := rfl
  by_cases h1 : a.dims.length < 2 ∨ b.dims.length ≠ a.dims.length
  · have hno : ¬ matmulShapeOk a b := by
      unfold matmulShapeOk
      rw [hr, hrb]
      rcases h1 with h | h
      · intro hc; omega
      · intro hc; exact h (hc.2.1)
    have hrun : (Tensor.matmul a b s).1 =
        .error (.shapeMismatchBinaryOp a.dims b.dims "matmul") := by
      simp only [Tensor.matmul, M.bind_eq, M.pure_eq]
      rw [if_pos h1]
      rfl
    refine ⟨?_, fun _ => hrun⟩
    rw [hrun]
    simp [hno, Except.isOk, Except.toBool]
  · push_neg at h1
    obtain ⟨hge, heq⟩ := h1
    by_cases h2 : a.dims.getD (a.dims.length - 1) 0 ≠ b.dims.getD (a.dims.length - 2) 0 ∨
        (a.dims.take (a.dims.length - 2)).prod ≠ (b.dims.take (a.dims.length - 2)).prod
    · have hno : ¬ matmulShapeOk a b := by
        unfold matmulShapeOk
        rw [hr, hrb]
        rcases h2 with h | h
        · intro hc; exact h hc.2.2.2
        · intro hc; exact h hc.2.2.1
      have hrun : (Tensor.matmul a b s).1 =
          .error (.shapeMismatchBinaryOp a.dims b.dims "matmul") := by
        simp only [Tensor.matmul, M.bind_eq, M.pure_eq]
        rw [if_neg (by omega), if_pos h2]
        rfl
      refine ⟨?_, fun _ => hrun⟩
      rw [hrun]
      simp [hno, Except.isOk, Except.toBool]
    · push_neg at h2
      obtain ⟨hk, hbatch⟩ := h2
      have hyes : matmulShapeOk a b := by
        unfold matmulShapeOk
        rw [hr, hrb]
        exact ⟨hge, heq, hbatch, hk⟩
      have hrun : ∃ t' s', Tensor.matmul a b s = (.ok t', s') := by
        simp only [Tensor.matmul, M.bind_eq, M.pure_eq]
        rw [if_neg (by omega), if_neg (by push_neg; exact ⟨hk, hbatch⟩)]
        simp only [Storage.matmulKernel, hdev, hdt, ne_eq, not_true_eq_false,
          Bool.false_eq_true, if_false, ite_false, M.bind_assoc, M.bind_emit,
          M.bind_pure_arg, M.bind_freshId, fromStorage, M.pure_apply]
        exact ⟨_, _, rfl⟩
      obtain ⟨t', s', hrun⟩ := hrun
      refine ⟨?_, fun hc => absurd hyes hc⟩
      rw [hrun]
      simp [hyes, Except.isOk, Except.toBool]

/-- Witness for the amended C2 at concrete compatible operands. -/
theorem claim_C2_witness :
    ((Tensor.matmul sampleT23b sampleT32b ⟨2, []⟩).1.isOk = true ↔
      matmulShapeOk sampleT23b sampleT32b) ∧
    (¬ matmulShapeOk sampleT23b sampleT32b →
      (Tensor.matmul sampleT23b sampleT32b ⟨2, []⟩).1 =
        .error (.shapeMismatchBinaryOp sampleT23b.dims sampleT32b.dims "matmul")) :=
  claim_C2_amended_matmul_check sampleT23b sampleT32b ⟨2, []⟩ (by decide) (by decide)

/-! ## C3: the index-family shape checks -/

/-- Counterexample to claim C3 as stated: `index_select` accepts a 1-D
index tensor whose length (2) differs from the source's size along the
selected axis (3) — no length check exists for `index_select`. -/
theorem claim_C3_counterexample :
    ((Tensor.index_select sampleVec3 sampleIds2 0 ⟨6, []⟩).1.isOk = true) ∧
      sampleIds2.dims.getD 0 0 ≠ sampleVec3.dims.getD 0 0 := by decide

/-- Claim C3, amended: `index_select` requires only that its index tensor
be 1-D — the index length is unconstrained and becomes the output's size
along the selected axis; a non-1-D index fails with a shape mismatch
naming `index-select`. `index_add` additionally requires the 1-D index
length to equal the source's size along the selected axis and fails with
a shape mismatch naming `index-add (ids, source))` otherwise. -/
theorem claim_C3_amended_index_checks :
    (∀ (t ids : Tensor) (dim : Nat) (s : St), dim < t.rank →
      t.storage.device = ids.storage.device →
      ((∃ l, ids.dims = [l]) →
        ∃ t' s', Tensor.index_select t ids dim s = (.ok t', s') ∧
          t'.dims = t.dims.set dim (ids.dims.headD 0)) ∧
      (¬ (∃ l, ids.dims = [l]) →
        (Tensor.index_select t ids dim s).1 =
          .error (.shapeMismatchBinaryOp t.dims ids.dims "index-select"))) ∧
    (∀ (t ids src : Tensor) (dim : Nat) (s : St), dim < t.rank →
      t.storage.device = ids.storage.device →
      t.storage.device = src.storage.device →
      t.storage.dtype = src.storage.dtype →
      src.dims.length = t.dims.length →
      (∀ i, i ≠ dim → t.dims.getD i 0 = src.dims.getD i 0) →
      ((ids.dims = [src.dims.getD dim 0] →
        ∃ t' s', Tensor.index_add t ids src dim s = (.ok t', s') ∧ t'.dims = t.dims) ∧
      (∀ l, ids.dims = [l] → l ≠ src.dims.getD dim 0 →
        (Tensor.index_add t ids src dim s).1 =
          .error (.shapeMismatchBinaryOp ids.dims src.dims "index-add (ids, source))")))) := by
  constructor
  · intro t ids dim s hdim hdev
    have hnot : ¬ dim ≥ t.dims.length := Nat.not_le.mpr hdim
    constructor
    · rintro ⟨l, hl⟩
      simp only [Tensor.index_select, M.bind_eq, M.pure_eq, dimToIndex, hnot, ite_false,
        if_false, M.bind_ofExcept_ok, hl, Storage.indexSelect, hdev, ne_eq,
        not_true_eq_false, Bool.false_eq_true, M.bind_assoc, M.bind_emit, M.bind_pure_arg,
        M.bind_freshId, fromStorage, M.pure_apply]
      exact ⟨_, _, rfl, by simp [hl, Tensor.dims, Layout.contiguous, Layout.contiguousWithOffset]⟩
    · intro hno
      simp only [Tensor.index_select, M.bind_eq, M.pure_eq, dimToIndex]
      rw [if_neg hnot, M.bind_ofExcept_ok]
      match hd : ids.dims with
      | [] => rfl
      | [l] => exact absurd ⟨l, hd⟩ hno
      | a :: b :: rest => rfl
  · intro t ids src dim s hdim hdev1 hdev2 hdt hlen hagree
    have hnot : ¬ dim ≥ t.dims.length := Nat.not_le.mpr hdim
    have hany : ((t.dims.zip src.dims).enum.any fun p =>
        decide (p.1 ≠ dim ∧ p.2.1 ≠ p.2.2)) = false := by
      rw [List.any_eq_false]
      rintro ⟨i, a, b⟩ hmem
      rw [List.mk_mem_enum_iff_getElem?, List.getElem?_zip_eq_some] at hmem
      obtain ⟨ha, hb⟩ := hmem
      simp only [decide_eq_true_eq, not_and]
      intro hid hab
      apply hab
      have hga : t.dims.getD i 0 = a := by
        rw [List.getD_eq_getElem?_getD, ha]; rfl
      have hgb : src.dims.getD i 0 = b := by
        rw [List.getD_eq_getElem?_getD, hb]; rfl
      rw [← hga, ← hgb]
      exact hagree i hid
    have hmm : (if src.dims.length ≠ t.dims.length then true
        else ((t.dims.zip src.dims).enum.any fun p =>
          decide (p.1 ≠ dim ∧ p.2.1 ≠ p.2.2))) = false := by
      rw [if_neg (by simp [hlen]), hany]
    have hdev12 : ids.storage.device = src.storage.device := hdev1.symm.trans hdev2
    constructor
    · intro hl
      simp only [Tensor.index_add, M.bind_eq, M.pure_eq, dimToIndex, hnot, ite_false,
        if_false, M.bind_ofExcept_ok, hmm, Bool.false_eq_true, Tensor.dims1, hl,
        Storage.indexAdd, hdev1, hdev12, hdt, ne_eq, not_true_eq_false, M.bind_assoc,
        M.bind_emit, M.bind_pure_arg, M.bind_freshId, fromStorage, M.pure_apply]
      exact ⟨_, _, rfl, rfl⟩
    · intro l hl hne
      simp only [Tensor.index_add, M.bind_eq, M.pure_eq, dimToIndex]
      rw [if_neg hnot, M.bind_ofExcept_ok, if_neg (by rw [hmm]; simp)]
      simp only [Tensor.dims1, hl]
      rw [M.bind_ofExcept_ok, if_pos (fun hc => hne hc.symm)]
      rfl

/-! ## C6: `broadcast_add` versus explicit double broadcast -/

theorem bcastStrides_self : ∀ (ds st : List Nat), ds.length = st.length →
    bcastStrides (ds.zip (ds.zip st)) = some st
  | [], [], _ => rfl
  | [], _ :: _, h => by simp at h
  | _ :: _, [], h => by simp at h
  | d :: ds, s :: st, h => by
    have ih := bcastStrides_self ds st (by simpa using h)
    simp only [List.zip] at ih ⊢
    simp [bcastStrides, ih]

/-- Broadcasting a well-formed layout to its own shape is the identity. -/
theorem broadcastAs_self (l : Layout) (hwf : l.wf) : l.broadcastAs l.dims = .ok l := by
  unfold Layout.broadcastAs
  rw [if_neg (lt_irrefl _), Nat.sub_self, List.drop_zero, bcastStrides_self _ _ hwf.symm]
  simp

theorem bcastZip_length : ∀ (x y z : List Nat), bcastZip x y = some z →
    z.length = x.length ∧ x.length = y.length
  | [], [], _, h => by simp_all [bcastZip]
  | [], _ :: _, _, h => by simp [bcastZip] at h
  | _ :: _, [], _, h => by simp [bcastZip] at h
  | a :: as_, b :: bs, z, h => by
    cases hd : bcastDim a b with
    | none => simp [bcastZip, hd] at h
    | some d =>
      cases hr : bcastZip as_ bs with
      | none => simp [bcastZip, hd, hr] at h
      | some zr =>
        simp only [bcastZip, hd, hr] at h
        obtain rfl := Option.some.inj h.symm
        have := bcastZip_length as_ bs zr hr
        simp [this.1, this.2]

theorem bcastZip_append_inv : ∀ (x1 : List Nat) (y1 : List Nat) (x2 y2 z : List Nat),
    x1.length = y1.length → bcastZip (x1 ++ x2) (y1 ++ y2) = some z →
    ∃ z1 z2, bcastZip x1 y1 = some z1 ∧ bcastZip x2 y2 = some z2 ∧ z = z1 ++ z2 ∧
      z1.length = x1.length
  | [], [], x2, y2, z, _, h => ⟨[], z, rfl, h, rfl, rfl⟩
  | [], _ :: _, _, _, _, hlen, _ => by simp at hlen
  | _ :: _, [], _, _, _, hlen, _ => by simp at hlen
  | A :: as_, Y :: ys, x2, y2, z, hlen, h => by
    simp only [List.cons_append] at h
    cases hd : bcastDim A Y with
    | none => simp [bcastZip, hd] at h
    | some D =>
      cases hr : bcastZip (as_ ++ x2) (ys ++ y2) with
      | none => simp [bcastZip, hd, hr] at h
      | some zr =>
        simp only [bcastZip, hd, hr] at h
        obtain rfl := Option.some.inj h.symm
        obtain ⟨z1, z2, h1, h2, rfl, hl1⟩ :=
          bcastZip_append_inv as_ ys x2 y2 zr (by simpa using hlen) hr
        exact ⟨D :: z1, z2, by simp [bcastZip, hd, h1], h2, rfl, by simp [hl1]⟩

theorem bcastStrides_of_bcastZip : ∀ (a y z st0 : List Nat), bcastZip a y = some z →
    a.length = st0.length → ∃ st, bcastStrides (z.zip (a.zip st0)) = some st
  | [], [], z, st0, h, _ => by
    simp only [bcastZip, Option.some.injEq] at h
    exact ⟨[], by simp [← h, bcastStrides]⟩
  | [], _ :: _, _, _, h, _ => by simp [bcastZip] at h
  | _ :: _, [], _, _, h, _ => by simp [bcastZip] at h
  | A :: as_, Y :: ys, z, st0, h, hlen => by
    cases st0 with
    | nil => simp at hlen
    | cons S ss =>
      cases hd : bcastDim A Y with
      | none => simp [bcastZip, hd] at h
      | some D =>
        cases hr : bcastZip as_ ys with
        | none => simp [bcastZip, hd, hr] at h
        | some zr =>
          simp only [bcastZip, hd, hr] at h
          obtain rfl := Option.some.inj h.symm
          obtain ⟨st, hst⟩ :=
            bcastStrides_of_bcastZip as_ ys zr ss hr (by simpa using hlen)
          by_cases hDA : D = A
          · refine ⟨S :: st, ?_⟩
            simp only [List.zip] at hst ⊢
            simp [bcastStrides, hst, hDA]
          · have hA1 : A = 1 := by
              unfold bcastDim at hd
              by_cases hAY : A = Y
              · rw [if_pos hAY] at hd
                exact absurd (Option.some.inj hd).symm hDA
              · rw [if_neg hAY] at hd
                by_cases hA1 : A = 1
                · exact hA1
                · rw [if_neg hA1] at hd
                  by_cases hY1 : Y = 1
                  · rw [if_pos hY1] at hd
                    exact absurd (Option.some.inj hd).symm hDA
                  · rw [if_neg hY1] at hd
                    simp at hd
            have hD1 : ¬ D = 1 := fun hh => hDA (hh.trans hA1.symm)
            refine ⟨0 :: st, ?_⟩
            simp only [List.zip] at hst ⊢
            simp [bcastStrides, hst, hDA, hA1, hD1]

theorem padOnes_length (n : Nat) (l : List Nat) (h : l.length ≤ n) :
    (padOnes n l).length = n := by
  simp [padOnes]
  omega

/-- When the broadcast-shape computation succeeds, `broadcast_as` to the
common shape succeeds on each operand. -/
theorem broadcastAs_of_broadcastShape (l : Layout) (b shape : List Nat) (op : String)
    (hwf : l.wf) (h : broadcastShapeBinaryOp l.dims b op = .ok shape) :
    ∃ st, l.broadcastAs shape =
      .ok ⟨shape, List.replicate (shape.length - l.dims.length) 0 ++ st, l.startOffset⟩ := by
  unfold broadcastShapeBinaryOp at h
  cases hz : bcastZip (padOnes (max l.dims.length b.length) l.dims)
      (padOnes (max l.dims.length b.length) b) with
  | none => rw [hz] at h; simp at h
  | some z =>
    rw [hz] at h
    simp only [Except.ok.injEq] at h
    subst h
    have hla : l.dims.length ≤ max l.dims.length b.length := le_max_left _ _
    have hlb : b.length ≤ max l.dims.length b.length := le_max_right _ _
    have hpa : padOnes (max l.dims.length b.length) l.dims =
        List.replicate (max l.dims.length b.length - l.dims.length) 1 ++ l.dims := rfl
    have hpb : padOnes (max l.dims.length b.length) b =
        ((padOnes (max l.dims.length b.length) b).take
          (max l.dims.length b.length - l.dims.length)) ++
        ((padOnes (max l.dims.length b.length) b).drop
          (max l.dims.length b.length - l.dims.length)) :=
      (List.take_append_drop _ _).symm
    rw [hpa, hpb] at hz
    have hlentake : (List.replicate (max l.dims.length b.length - l.dims.length)
        (1 : Nat)).length = ((padOnes (max l.dims.length b.length) b).take
          (max l.dims.length b.length - l.dims.length)).length := by
      rw [List.length_replicate, List.length_take, padOnes_length _ _ hlb]
      omega
    obtain ⟨z1, z2, _, h2, rfl, hl1⟩ := bcastZip_append_inv _ _ _ _ _ hlentake hz
    have hl1' : z1.length = max l.dims.length b.length - l.dims.length := by
      simp [hl1]
    have hzlen : (z1 ++ z2).length = max l.dims.length b.length := by
      have hcount := (bcastZip_length _ _ _ hz).1
      simp only [List.length_append, List.length_replicate] at hcount ⊢
      omega
    have hdrop : (z1 ++ z2).drop ((z1 ++ z2).length - l.dims.length) = z2 := by
      have hx : (z1 ++ z2).length - l.dims.length = z1.length := by omega
      rw [hx, List.drop_left]
    obtain ⟨st, hst⟩ := bcastStrides_of_bcastZip l.dims _ z2 l.stride h2 hwf.symm
    refine ⟨st, ?_⟩
    unfold Layout.broadcastAs
    rw [if_neg (by omega : ¬ (z1 ++ z2).length < l.dims.length), hdrop, hst]

theorem bcastDim_comm (a b : Nat) : bcastDim a b = bcastDim b a := by
  unfold bcastDim
  split_ifs <;> simp_all

theorem bcastZip_comm : ∀ (x y z : List Nat), bcastZip x y = some z →
    bcastZip y x = some z
  | [], [], z, h => h
  | [], _ :: _, _, h => by simp [bcastZip] at h
  | _ :: _, [], _, h => by simp [bcastZip] at h
  | a :: as_, b :: bs, z, h => by
    cases hd : bcastDim a b with
    | none => simp [bcastZip, hd] at h
    | some d =>
      cases hr : bcastZip as_ bs with
      | none => simp [bcastZip, hd, hr] at h
      | some zr =>
        simp only [bcastZip, hd, hr] at h
        obtain rfl := Option.some.inj h.symm
        simp [bcastZip, bcastDim_comm b a, hd, bcastZip_comm as_ bs zr hr]

theorem broadcastShapeBinaryOp_swap (x y shape : List Nat) (op1 op2 : String)
    (h : broadcastShapeBinaryOp x y op1 = .ok shape) :
    broadcastShapeBinaryOp y x op2 = .ok shape := by
  unfold broadcastShapeBinaryOp at h ⊢
  cases hz : bcastZip (padOnes (max x.length y.length) x)
      (padOnes (max x.length y.length) y) with
  | none => rw [hz] at h; simp at h
  | some z =>
    rw [hz] at h
    simp only [Except.ok.injEq] at h
    subst h
    rw [Nat.max_comm y.length x.length, bcastZip_comm _ _ _ hz]

/-- Evaluation of `broadcast_as` when the layout broadcast succeeds. -/
theorem broadcast_as_eval (t : Tensor) (shape : List Nat) (L : Layout) (s : St)
    (hA : t.layout.broadcastAs shape = .ok L) :
    t.broadcast_as shape s = (.ok ⟨s.nextId, t.storage, L, BackpropOp.new1 t Op.broadcast,
      false, t.dtype, t.device⟩, { s with nextId := s.nextId + 1 }) := by
  simp only [Tensor.broadcast_as, M.bind_eq, M.pure_eq]
  rw [hA, M.bind_ofExcept_ok, M.bind_freshId]
  rfl

/-- Evaluation of `add` on same-shape operands with matching storage
tags. -/
theorem add_eval (x y : Tensor) (s : St) (hsh : x.dims = y.dims)
    (hdt : x.storage.dtype = y.storage.dtype)
    (hdev : x.storage.device = y.storage.device) :
    Tensor.add x y s = (.ok ⟨s.nextId,
      ⟨List.zipWith (· + ·) (materialize x.storage.data x.layout)
        (materialize y.storage.data y.layout), x.storage.dtype, x.storage.device⟩,
      Layout.contiguous x.dims, BackpropOp.new2 x y (fun a b => Op.binary a b "add"),
      false, x.storage.dtype, x.storage.device⟩,
      ⟨s.nextId + 1, s.trace ++ [.binaryKernel "add"]⟩) := by
  simp only [Tensor.add, Tensor.same_shape_binary_op, M.bind_eq, M.pure_eq]
  rw [if_neg (by simp [hsh]), M.bind_ofExcept_ok]
  simp only [Storage.binaryImpl, hdev, hdt, ne_eq, not_true_eq_false, Bool.false_eq_true,
    if_false, ite_false, M.bind_assoc, M.bind_emit, M.bind_pure_arg, M.bind_freshId,
    fromStorage, M.pure_apply]
  rfl

/-- Claim C6: for broadcast-compatible tensors with common shape `s`,
`broadcast_add(a, b)` produces the same shape and the same materialized
values as `a.broadcast_as(s).add(b.broadcast_as(s))`. -/
theorem double_bcast_add_run (a b : Tensor) (shape : List Nat) (LA LB : Layout) (s : St)
    (hLA : a.layout.broadcastAs shape = .ok LA) (hLB : b.layout.broadcastAs shape = .ok LB)
    (hdims : LA.dims = LB.dims)
    (hdt : a.storage.dtype = b.storage.dtype)
    (hdev : a.storage.device = b.storage.device) :
    (M.bind (a.broadcast_as shape) fun la => M.bind (b.broadcast_as shape) fun lb =>
      la.add lb) s =
    (.ok ⟨s.nextId + 2,
        ⟨List.zipWith (· + ·) (materialize a.storage.data LA)
          (materialize b.storage.data LB), a.storage.dtype, a.storage.device⟩,
        Layout.contiguous LA.dims,
        BackpropOp.new2
          ⟨s.nextId, a.storage, LA, BackpropOp.new1 a Op.broadcast, false, a.dtype,
            a.device⟩
          ⟨s.nextId + 1, b.storage, LB, BackpropOp.new1 b Op.broadcast, false, b.dtype,
            b.device⟩ (fun x y => Op.binary x y "add"),
        false, a.storage.dtype, a.storage.device⟩,
      ⟨s.nextId + 3, s.trace ++ [.binaryKernel "add"]⟩) := by
  have e1 := broadcast_as_eval a shape LA s hLA
  have e2 := broadcast_as_eval b shape LB { s with nextId := s.nextId + 1 } hLB
  have e3 := add_eval
    ⟨s.nextId, a.storage, LA, BackpropOp.new1 a Op.broadcast, false, a.dtype, a.device⟩
    ⟨s.nextId + 1, b.storage, LB, BackpropOp.new1 b Op.broadcast, false, b.dtype, b.device⟩
    ⟨s.nextId + 2, s.trace⟩ hdims hdt hdev
  exact ((M.bind_apply_ok _ _ _ _ _ e1).trans (M.bind_apply_ok _ _ _ _ _ e2)).trans e3

/-- Claim C6: for broadcast-compatible tensors with common shape `s`,
`broadcast_add(a, b)` produces the same shape and the same materialized
values as `a.broadcast_as(s).add(b.broadcast_as(s))`. -/
theorem claim_C6_broadcast_add_equiv (a b : Tensor) (shape : List Nat) (s1 s2 : St)
    (hwfa : a.layout.wf) (hwfb : b.layout.wf)
    (hdt : a.storage.dtype = b.storage.dtype)
    (hdev : a.storage.device = b.storage.device)
    (hb : broadcastShapeBinaryOp a.dims b.dims "broadcast_add" = .ok shape) :
    ∃ t1 t2 s1' s2',
      Tensor.broadcast_add a b s1 = (.ok t1, s1') ∧
      (M.bind (a.broadcast_as shape) fun la => M.bind (b.broadcast_as shape) fun lb =>
        la.add lb) s2 = (.ok t2, s2') ∧
      t1.dims = t2.dims ∧ t1.materialized = t2.materialized := by
  have hswap := broadcastShapeBinaryOp_swap a.dims b.dims shape "broadcast_add"
    "broadcast_add" hb
  by_cases hA : shape = a.dims
  · have hLA : a.layout.broadcastAs shape = .ok a.layout := by
      rw [hA]; exact broadcastAs_self a.layout hwfa
    by_cases hB : shape = b.dims
    · have hLB : b.layout.broadcastAs shape = .ok b.layout := by
        rw [hB]; exact broadcastAs_self b.layout hwfb
      have hab : a.dims = b.dims := hA ▸ hB
      have h1run : Tensor.broadcast_add a b s1 = Tensor.add a b s1 := by
        simp only [Tensor.broadcast_add, M.bind_eq, M.pure_eq]
        rw [hb, M.bind_ofExcept_ok]
        simp [hA, hab]
      rw [add_eval a b s1 hab hdt hdev] at h1run
      have h2run := double_bcast_add_run a b shape a.layout b.layout s2 hLA hLB hab
        hdt hdev
      exact ⟨_, _, _, _, h1run, h2run, rfl, rfl⟩
    · obtain ⟨stB, hLB⟩ := broadcastAs_of_broadcastShape b.layout a.dims shape
        "broadcast_add" hwfb hswap
      have hab' : ¬ a.dims = b.dims := fun h => hB (hA.trans h)
      have h1run : Tensor.broadcast_add a b s1 =
          M.bind (b.broadcast_as shape) (fun rb => a.add rb) s1 := by
        simp only [Tensor.broadcast_add, M.bind_eq, M.pure_eq]
        rw [hb, M.bind_ofExcept_ok]
        simp [hA, hab']
      have h1run' := h1run.trans ((M.bind_apply_ok _ _ _ _ _
        (broadcast_as_eval b shape _ s1 hLB)).trans
        (add_eval a _ _ hA.symm hdt hdev))
      have h2run := double_bcast_add_run a b shape a.layout _ s2 hLA hLB hA.symm
        hdt hdev
      exact ⟨_, _, _, _, h1run', h2run, rfl, rfl⟩
  · obtain ⟨stA, hLA⟩ := broadcastAs_of_broadcastShape a.layout b.dims shape
      "broadcast_add" hwfa hb
    by_cases hB : shape = b.dims
    · have hLB : b.layout.broadcastAs shape = .ok b.layout := by
        rw [hB]; exact broadcastAs_self b.layout hwfb
      have hba' : ¬ b.dims = a.dims := fun h => hA (hB.trans h)
      have h1run : Tensor.broadcast_add a b s1 =
          M.bind (a.broadcast_as shape) (fun lb => lb.add b) s1 := by
        simp only [Tensor.broadcast_add, M.bind_eq, M.pure_eq]
        rw [hb, M.bind_ofExcept_ok]
        simp [hB, hba']
      have h1run' := h1run.trans ((M.bind_apply_ok _ _ _ _ _
        (broadcast_as_eval a shape _ s1 hLA)).trans
        (add_eval _ b _ hB hdt hdev))
      have h2run := double_bcast_add_run a b shape _ b.layout s2 hLA hLB hB
        hdt hdev
      exact ⟨_, _, _, _, h1run', h2run, rfl, rfl⟩
    · obtain ⟨stB, hLB⟩ := broadcastAs_of_broadcastShape b.layout a.dims shape
        "broadcast_add" hwfb hswap
      have h1run : Tensor.broadcast_add a b s1 =
          M.bind (a.broadcast_as shape) (fun la => M.bind (b.broadcast_as shape)
            fun rb => la.add rb) s1 := by
        simp only [Tensor.broadcast_add, M.bind_eq, M.pure_eq]
        rw [hb, M.bind_ofExcept_ok]
        simp [hA, hB]
      have h1run' := h1run.trans (double_bcast_add_run a b shape _ _ s1 hLA hLB rfl
        hdt hdev)
      have h2run := double_bcast_add_run a b shape _ _ s2 hLA hLB rfl hdt hdev
      exact ⟨_, _, _, _, h1run', h2run, rfl, rfl⟩

/-- Witness for C6: broadcasting a row vector over a 2×3 matrix. -/
theorem claim_C6_witness :
    ∃ t1 t2 s1' s2',
      Tensor.broadcast_add sampleT23 sampleVec3 ⟨11, []⟩ = (.ok t1, s1') ∧
      (M.bind (sampleT23.broadcast_as [2, 3]) fun la =>
        M.bind (sampleVec3.broadcast_as [2, 3]) fun lb => la.add lb) ⟨11, []⟩ =
        (.ok t2, s2') ∧
      t1.dims = t2.dims ∧ t1.materialized = t2.materialized :=
  claim_C6_broadcast_add_equiv sampleT23 sampleVec3 [2, 3] ⟨11, []⟩ ⟨11, []⟩
    (by decide) (by decide) (by decide) (by decide) (by decide)

/-! ## C4: reduction output shapes -/

theorem dimsToIndexes_ok (S shape : List Nat) (op : String)
    (h : ∀ i ∈ S, i < shape.length) : dimsToIndexes S shape op = .ok S := by
  induction S with
  | nil => rfl
  | cons a S' ih =>
    have ha : a < shape.length := h a (List.mem_cons_self a S')
    have hS' := ih fun i hi => h i (List.mem_cons_of_mem a hi)
    have hhd : dimToIndex a shape op = .ok a := by
      simp [dimToIndex, Nat.not_le.mpr ha]
    unfold dimsToIndexes at hS' ⊢
    rw [List.mapM_cons, hhd, hS']
    rfl

theorem foldl_set_length : ∀ (S : List Nat) (dims : List Nat),
    (S.foldl (fun acc i => acc.set i 1) dims).length = dims.length
  | [], _ => rfl
  | s :: S', dims => by
    simp only [List.foldl_cons]
    rw [foldl_set_length S' (dims.set s 1), List.length_set]

theorem foldl_set_getElem? : ∀ (S : List Nat) (dims : List Nat) (j : Nat),
    (S.foldl (fun acc i => acc.set i 1) dims)[j]? =
      if j ∈ S ∧ j < dims.length then some 1 else dims[j]?
  | [], dims, j => by simp
  | s :: S', dims, j => by
    simp only [List.foldl_cons]
    rw [foldl_set_getElem? S' (dims.set s 1) j, List.length_set]
    by_cases hjS : j ∈ S'
    · by_cases hjl : j < dims.length
      · simp [hjS, hjl]
      · simp only [hjS, hjl, and_false, and_true, if_false, ite_false, List.mem_cons]
        rw [List.getElem?_set]
        have h1 : dims[j]? = none := List.getElem?_eq_none (by omega)
        simp [h1, hjl]
        omega
    · by_cases hjs : j = s
      · subst hjs
        by_cases hjl : j < dims.length
        · simp [hjS, hjl, List.getElem?_set_self]
        · simp only [hjS, hjl, and_false, false_and, if_false, ite_false, List.mem_cons]
          rw [List.getElem?_set]
          have h1 : dims[j]? = none := List.getElem?_eq_none (by omega)
          simp [h1, hjl]
      · have hsj : ¬ s = j := fun hh => hjs hh.symm
        rw [List.getElem?_set_ne hsj]
        simp [List.mem_cons, hjS, hjs]

theorem enumFilter_congr (S : List Nat) : ∀ (xs ys : List Nat) (n : Nat),
    xs.length = ys.length →
    (∀ k, (n + k) ∉ S → xs[k]? = ys[k]?) →
    ((List.enumFrom n xs).filter (fun p => decide (p.1 ∉ S))).map Prod.snd =
    ((List.enumFrom n ys).filter (fun p => decide (p.1 ∉ S))).map Prod.snd
  | [], [], _, _, _ => rfl
  | [], _ :: _, _, hlen, _ => by simp at hlen
  | _ :: _, [], _, hlen, _ => by simp at hlen
  | x :: xs, y :: ys, n, hlen, hp => by
    have htl := enumFilter_congr S xs ys (n + 1) (by simpa using hlen)
      (fun k hk => by
        have := hp (k + 1) (by rwa [show n + (k + 1) = n + 1 + k by omega])
        simpa using this)
    by_cases hn : n ∈ S
    · rw [List.enumFrom_cons, List.enumFrom_cons,
        List.filter_cons_of_neg (by simp [hn]), List.filter_cons_of_neg (by simp [hn])]
      exact htl
    · have hxy : x = y := by
        have := hp 0 (by simpa using hn)
        simpa using this
      rw [List.enumFrom_cons, List.enumFrom_cons,
        List.filter_cons_of_pos (by simp [hn]), List.filter_cons_of_pos (by simp [hn]),
        List.map_cons, List.map_cons, hxy, htl]

theorem prod_eq_filterProd (S : List Nat) : ∀ (xs ys : List Nat) (n : Nat),
    xs.length = ys.length →
    (∀ k, (n + k) ∉ S → xs[k]? = ys[k]?) →
    (∀ k, (n + k) ∈ S → k < xs.length → xs[k]? = some 1) →
    xs.prod = (((List.enumFrom n ys).filter (fun p => decide (p.1 ∉ S))).map Prod.snd).prod
  | [], [], _, _, _, _ => rfl
  | [], _ :: _, _, hlen, _, _ => by simp at hlen
  | _ :: _, [], _, hlen, _, _ => by simp at hlen
  | x :: xs, y :: ys, n, hlen, hp, h1 => by
    have htl := prod_eq_filterProd S xs ys (n + 1) (by simpa using hlen)
      (fun k hk => by
        have := hp (k + 1) (by rwa [show n + (k + 1) = n + 1 + k by omega])
        simpa using this)
      (fun k hk hkl => by
        have := h1 (k + 1) (by rwa [show n + (k + 1) = n + 1 + k by omega])
          (by simpa using Nat.succ_lt_succ hkl)
        simpa using this)
    by_cases hn : n ∈ S
    · have hx1 : x = 1 := by
        have := h1 0 (by simpa using hn) (by simp)
        simpa using this
      rw [List.enumFrom_cons, List.filter_cons_of_neg (by simp [hn]), List.prod_cons,
        hx1, one_mul]
      exact htl
    · have hxy : x = y := by
        have := hp 0 (by simpa using hn)
        simpa using this
      rw [List.enumFrom_cons, List.filter_cons_of_pos (by simp [hn]), List.map_cons,
        List.prod_cons, List.prod_cons, hxy, htl]

theorem enumFilterSingle_ge : ∀ (xs : List Nat) (n m : Nat), m < n →
    ((List.enumFrom n xs).filter (fun p => decide (p.1 ∉ [m]))).map Prod.snd = xs
  | [], _, _, _ => rfl
  | x :: xs, n, m, h => by
    rw [List.enumFrom_cons, List.filter_cons_of_pos (by simp; omega), List.map_cons,
      enumFilterSingle_ge xs (n + 1) m (by omega)]

theorem eraseIdx_eq_enumFilter : ∀ (l : List Nat) (i n : Nat),
    ((List.enumFrom n l).filter (fun p => decide (p.1 ∉ [n + i]))).map Prod.snd =
      l.eraseIdx i
  | [], _, _ => rfl
  | x :: xs, 0, n => by
    rw [List.enumFrom_cons, List.filter_cons_of_neg (by simp)]
    simp only [Nat.add_zero]
    rw [enumFilterSingle_ge xs (n + 1) n (by omega)]
    rfl
  | x :: xs, i + 1, n => by
    rw [List.enumFrom_cons, List.filter_cons_of_pos (by simp), List.map_cons,
      show n + (i + 1) = n + 1 + i by omega, eraseIdx_eq_enumFilter xs i (n + 1)]
    rfl

/-- Evaluation of the view branch of `reshape`. -/
theorem reshape_view_eval (t : Tensor) (shape : List Nat) (s : St)
    (hcnt : elemCount shape = t.elem_count) (hcontig : t.is_contiguous = true) :
    t.reshape shape s = (.ok ⟨s.nextId, t.storage,
      Layout.contiguousWithOffset shape t.layout.startOffset, BackpropOp.new1 t Op.reshape,
      false, t.dtype, t.device⟩, { s with nextId := s.nextId + 1 }) := by
  simp only [Tensor.reshape, M.bind_eq, M.pure_eq]
  rw [if_neg (by rw [hcnt]; exact fun h => h rfl)]
  simp only [hcontig, if_true, ite_true, M.bind_freshId]
  rfl

/-- Witness for the amended C3: a 1-D `index_select` of arbitrary length
and a length-checked `index_add` at concrete tensors. -/
theorem claim_C3_witness :
    ((∃ l, sampleIds2.dims = [l]) →
      ∃ t' s', Tensor.index_select sampleVec3 sampleIds2 0 ⟨6, []⟩ = (.ok t', s') ∧
        t'.dims = sampleVec3.dims.set 0 (sampleIds2.dims.headD 0)) ∧
    (sampleIds2.dims = [sampleSrc22.dims.getD 0 0] →
      ∃ t' s', Tensor.index_add sampleSelf32 sampleIds2 sampleSrc22 0 ⟨6, []⟩ =
        (.ok t', s') ∧ t'.dims = sampleSelf32.dims) :=
  ⟨((claim_C3_amended_index_checks.1 sampleVec3 sampleIds2 0 ⟨6, []⟩ (by decide)
      (by decide)).1),
   ((claim_C3_amended_index_checks.2 sampleSelf32 sampleIds2 sampleSrc22 0 ⟨6, []⟩
      (by decide) (by decide) (by decide) (by decide) (by decide)
      (by
        intro i hi
        match i with
        | 0 => exact absurd rfl hi
        | 1 => rfl
        | n + 2 => rfl)).1)⟩

theorem enumFrom_map_snd (n : Nat) : ∀ (l : List Nat),
    (List.enumFrom n l).map Prod.snd = l
  | [] => rfl
  | x :: xs => by
    rw [List.enumFrom_cons, List.map_cons, enumFrom_map_snd (n + 1) xs]

theorem specShapeSqueezed_nil (dims : List Nat) : specShapeSqueezed dims [] = dims := by
  unfold specShapeSqueezed
  have hf : ∀ (l : List (Nat × Nat)),
      (l.filter fun p => decide (p.1 ∉ ([] : List Nat))) = l := by
    intro l
    induction l with
    | nil => rfl
    | cons x xs ih => rw [List.filter_cons_of_pos (by simp), ih]
  rw [hf]
  exact enumFrom_map_snd 0 dims

theorem contiguousWithOffset_isContiguous (shape : List Nat) (off : Nat) :
    (Layout.contiguousWithOffset shape off).isContiguous = true := by
  simp [Layout.isContiguous, Layout.contiguousWithOffset]

/-- Evaluation of `squeeze` when the dimension exists, has size 1 and the
tensor is a contiguous view whose element count survives the removal. -/
theorem squeeze_eval (u : Tensor) (i : Nat) (s : St) (hi : i < u.rank)
    (h1 : u.dims.getD i 0 = 1) (hcontig : u.is_contiguous = true)
    (hcnt : elemCount (u.dims.eraseIdx i) = u.elem_count) :
    u.squeeze i s = (.ok ⟨s.nextId, u.storage,
      Layout.contiguousWithOffset (u.dims.eraseIdx i) u.layout.startOffset,
      BackpropOp.new1 u Op.reshape, false, u.dtype, u.device⟩,
      { s with nextId := s.nextId + 1 }) := by
  have hi' : ¬ i ≥ u.dims.length := Nat.not_le.mpr hi
  simp only [Tensor.squeeze, M.bind_eq, dimToIndex]
  rw [if_neg hi', M.bind_ofExcept_ok, if_pos h1,
    reshape_view_eval u (u.dims.eraseIdx i) s hcnt hcontig]

/-- Evaluation of `sum_impl`: valid dimension indices resolve, the reduce
kernel runs once, and the reduced tensor (every listed dimension set to 1,
contiguous layout) is either kept or squeezed. -/
theorem sum_impl_eval (t : Tensor) (S : List Nat) (keepdim : Bool) (s : St)
    (hv : ∀ i ∈ S, i < t.rank) :
    t.sum_impl S keepdim s =
      (if keepdim then
        M.pure (⟨s.nextId,
          ⟨reduceSumData t.storage t.layout S, t.storage.dtype, t.storage.device⟩,
          Layout.contiguous (S.foldl (fun acc i => acc.set i 1) t.dims),
          BackpropOp.new1 t (fun a =>
            Op.reduce a "sum" (S.foldl (fun acc i => acc.set i 1) t.dims)),
          false, t.storage.dtype, t.storage.device⟩ : Tensor)
      else
        Tensor.squeeze_dims ⟨s.nextId,
          ⟨reduceSumData t.storage t.layout S, t.storage.dtype, t.storage.device⟩,
          Layout.contiguous (S.foldl (fun acc i => acc.set i 1) t.dims),
          BackpropOp.new1 t (fun a =>
            Op.reduce a "sum" (S.foldl (fun acc i => acc.set i 1) t.dims)),
          false, t.storage.dtype, t.storage.device⟩ S)
      ⟨s.nextId + 1, s.trace ++ [.reduceKernel "sum"]⟩ := by
  simp only [Tensor.sum_impl, M.bind_eq]
  rw [dimsToIndexes_ok S t.dims "sum" hv, M.bind_ofExcept_ok]
  simp only [Storage.reduceSum, M.bind_eq, M.bind_assoc, M.bind_emit, M.bind_pure_arg,
    fromStorage, M.bind_freshId, M.pure_eq]

/-- C4: for every tensor, every list of valid reduced dimensions (any
rank, any number of entries) and every starting state, `sum` succeeds and
its output shape is the input shape with the listed dimensions removed,
and `sum_keepdim` succeeds and its output shape is the input shape with
the listed dimensions replaced by 1. -/
theorem claim_C4_sum_shapes (t : Tensor) (S : List Nat) (s : St)
    (hv : ∀ i ∈ S, i < t.rank) :
    (∃ t' s', Tensor.sum t S s = (.ok t', s') ∧
      t'.dims = specShapeSqueezed t.dims S) ∧
    (∃ t' s', Tensor.sum_keepdim t S s = (.ok t', s') ∧
      t'.dims = specShapeKept t.dims S) := by
  constructor
  · rcases S with _ | ⟨i, _ | ⟨j, rest⟩⟩
    · refine ⟨_, _, sum_impl_eval t [] false s hv, ?_⟩
      show t.dims = specShapeSqueezed t.dims []
      exact (specShapeSqueezed_nil t.dims).symm
    · have hi : i < t.rank := hv i (List.mem_cons_self i [])
      have hi' : i < t.dims.length := hi
      have hlen : (t.dims.set i 1).length = t.dims.length := by
        rw [List.length_set]
      have he := eraseIdx_eq_enumFilter (t.dims.set i 1) i 0
      rw [Nat.zero_add] at he
      have h1 : i < (t.dims.set i 1).length := by rw [hlen]; exact hi'
      have h2 : (t.dims.set i 1).getD i 0 = 1 := by
        rw [List.getD_eq_getElem?_getD]
        simp [List.getElem?_set_self, hi']
      have h4 : ((t.dims.set i 1).eraseIdx i).prod = (t.dims.set i 1).prod := by
        have hp := prod_eq_filterProd [i] (t.dims.set i 1) (t.dims.set i 1) 0 rfl
          (fun _ _ => rfl)
          (fun k hk hkl => by
            have hk' : k = i := by simpa using hk
            subst hk'
            have hkl' : k < t.dims.length := by simpa using hkl
            simp [List.getElem?_set_self, hkl'])
        rw [he] at hp
        exact hp.symm
      have h5 : (t.dims.set i 1).eraseIdx i = specShapeSqueezed t.dims [i] := by
        have hc := enumFilter_congr [i] (t.dims.set i 1) t.dims 0 hlen
          (fun k hk => by
            have hk' : ¬ k = i := by simpa using hk
            exact List.getElem?_set_ne (fun h => hk' h.symm))
        rw [← he]
        exact hc
      refine ⟨_, _, (sum_impl_eval t [i] false s hv).trans
        (squeeze_eval ⟨s.nextId,
          ⟨reduceSumData t.storage t.layout [i], t.storage.dtype, t.storage.device⟩,
          Layout.contiguous (t.dims.set i 1),
          BackpropOp.new1 t (fun a => Op.reduce a "sum" (t.dims.set i 1)),
          false, t.storage.dtype, t.storage.device⟩ i
          ⟨s.nextId + 1, s.trace ++ [BEvent.reduceKernel "sum"]⟩ h1 h2
          (contiguousWithOffset_isContiguous (t.dims.set i 1) 0) h4), ?_⟩
      exact h5
    · have hlen := foldl_set_length (i :: j :: rest) t.dims
      have hones : ∀ k, k ∈ i :: j :: rest →
          k < ((i :: j :: rest).foldl (fun acc m => acc.set m 1) t.dims).length →
          ((i :: j :: rest).foldl (fun acc m => acc.set m 1) t.dims)[k]? = some 1 := by
        intro k hk hkl
        rw [foldl_set_getElem?]
        rw [hlen] at hkl
        simp [hk, hkl]
      have hoff : ∀ k, k ∉ i :: j :: rest →
          ((i :: j :: rest).foldl (fun acc m => acc.set m 1) t.dims)[k]? = t.dims[k]? := by
        intro k hk
        rw [foldl_set_getElem?]
        simp [hk]
      have h4 : elemCount
          (((List.enumFrom 0 ((i :: j :: rest).foldl (fun acc m => acc.set m 1) t.dims)).filter
            fun p => decide (p.1 ∉ i :: j :: rest)).map Prod.snd) =
          elemCount ((i :: j :: rest).foldl (fun acc m => acc.set m 1) t.dims) := by
        have hp := prod_eq_filterProd (i :: j :: rest)
          ((i :: j :: rest).foldl (fun acc m => acc.set m 1) t.dims)
          ((i :: j :: rest).foldl (fun acc m => acc.set m 1) t.dims) 0 rfl
          (fun _ _ => rfl)
          (fun k hk hkl => hones k (by simpa using hk) hkl)
        exact hp.symm
      have h5 : ((List.enumFrom 0 ((i :: j :: rest).foldl (fun acc m => acc.set m 1) t.dims)).filter
            fun p => decide (p.1 ∉ i :: j :: rest)).map Prod.snd =
          specShapeSqueezed t.dims (i :: j :: rest) := by
        exact enumFilter_congr (i :: j :: rest)
          ((i :: j :: rest).foldl (fun acc m => acc.set m 1) t.dims) t.dims 0 hlen
          (fun k hk => hoff k (by simpa using hk))
      refine ⟨_, _, (sum_impl_eval t (i :: j :: rest) false s hv).trans
        (reshape_view_eval ⟨s.nextId,
          ⟨reduceSumData t.storage t.layout (i :: j :: rest), t.storage.dtype,
            t.storage.device⟩,
          Layout.contiguous ((i :: j :: rest).foldl (fun acc m => acc.set m 1) t.dims),
          BackpropOp.new1 t (fun a =>
            Op.reduce a "sum" ((i :: j :: rest).foldl (fun acc m => acc.set m 1) t.dims)),
          false, t.storage.dtype, t.storage.device⟩
          (((List.enumFrom 0 ((i :: j :: rest).foldl (fun acc m => acc.set m 1) t.dims)).filter
            fun p => decide (p.1 ∉ i :: j :: rest)).map Prod.snd)
          ⟨s.nextId + 1, s.trace ++ [BEvent.reduceKernel "sum"]⟩ h4
          (contiguousWithOffset_isContiguous _ 0)), ?_⟩
      exact h5
  · refine ⟨_, _, sum_impl_eval t S true s hv, ?_⟩
    show S.foldl (fun acc i => acc.set i 1) t.dims = specShapeKept t.dims S
    apply List.ext_getElem?
    intro k
    rw [foldl_set_getElem? S t.dims k]
    unfold specShapeKept
    rw [show t.dims.enum = List.enumFrom 0 t.dims from rfl, List.getElem?_map,
      List.getElem?_enumFrom]
    by_cases hkS : k ∈ S
    · by_cases hkl : k < t.dims.length
      · obtain ⟨a, ha⟩ : ∃ a, t.dims[k]? = some a :=
          ⟨t.dims[k], List.getElem?_eq_getElem hkl⟩
        simp [hkS, hkl, ha]
      · have hnone : t.dims[k]? = none := List.getElem?_eq_none (by omega)
        simp [hkS, hkl, hnone]
    · cases hval : t.dims[k]? <;> simp [hkS, hval]

/-- Witness for C4: summing the 2 x 3 sample over dimension 1, with and
without keepdim, at a concrete state. -/
theorem claim_C4_witness :
    (∀ i ∈ [1], i < sampleT23.rank) ∧
    ((∃ t' s', Tensor.sum sampleT23 [1] ⟨20, []⟩ = (.ok t', s') ∧
        t'.dims = specShapeSqueezed sampleT23.dims [1]) ∧
     (∃ t' s', Tensor.sum_keepdim sampleT23 [1] ⟨20, []⟩ = (.ok t', s') ∧
        t'.dims = specShapeKept sampleT23.dims [1])) :=
  ⟨by decide, claim_C4_sum_shapes sampleT23 [1] ⟨20, []⟩ (by decide)⟩

/-! ## C8: no backend work before a failure -/

theorem transpose_trace (t : Tensor) (d1 d2 : Nat) (s : St) :
    ((t.transpose d1 d2) s).2.trace = s.trace := by
  simp only [Tensor.transpose, M.bind_eq, M.pure_eq]
  rcases h1 : dimToIndex d1 t.dims "transpose" with er | v1
  · rw [M.bind_ofExcept_error]
  · rw [M.bind_ofExcept_ok]
    rcases h2 : dimToIndex d2 t.dims "transpose" with er | v2
    · rw [M.bind_ofExcept_error]
    · rw [M.bind_ofExcept_ok]
      rcases h3 : t.layout.transpose v1 v2 with er | lay
      · rw [M.bind_ofExcept_error]
      · rw [M.bind_ofExcept_ok, M.bind_freshId, M.pure_apply]

theorem broadcast_as_trace (t : Tensor) (shape : List Nat) (s : St) :
    ((t.broadcast_as shape) s).2.trace = s.trace := by
  simp only [Tensor.broadcast_as, M.bind_eq, M.pure_eq]
  rcases h1 : t.layout.broadcastAs shape with er | lay
  · rw [M.bind_ofExcept_error]
  · rw [M.bind_ofExcept_ok, M.bind_freshId, M.pure_apply]

theorem transpose_ok_rank (t : Tensor) (d1 d2 : Nat) (s : St) (u : Tensor) (s2 : St)
    (h : t.transpose d1 d2 s = (.ok u, s2)) : u.dims.length = t.dims.length := by
  simp only [Tensor.transpose, M.bind_eq, M.pure_eq] at h
  rcases h1 : dimToIndex d1 t.dims "transpose" with er | v1
  · rw [h1, M.bind_ofExcept_error] at h
    simp at h
  · rw [h1, M.bind_ofExcept_ok] at h
    rcases h2 : dimToIndex d2 t.dims "transpose" with er | v2
    · rw [h2, M.bind_ofExcept_error] at h
      simp at h
    · rw [h2, M.bind_ofExcept_ok] at h
      rcases h3 : t.layout.transpose v1 v2 with er | lay
      · rw [h3, M.bind_ofExcept_error] at h
        simp at h
      · rw [h3, M.bind_ofExcept_ok, M.bind_freshId, M.pure_apply] at h
        cases h
        unfold Layout.transpose at h3
        by_cases hc : t.layout.dims.length ≤ v1 ∨ t.layout.dims.length ≤ v2
        · rw [if_pos hc] at h3
          cases h3
        · rw [if_neg hc] at h3
          cases h3
          show (swapIdx t.layout.dims v1 v2).length = t.dims.length
          exact length_swapIdx t.layout.dims v1 v2

theorem mapM_transpose_trace (d : Nat) : ∀ (l : List Tensor) (s : St),
    (((l.mapM fun a => a.transpose 0 d) : M (List Tensor)) s).2.trace = s.trace
  | [], s => rfl
  | a :: l, s => by
    rw [List.mapM_cons]
    simp only [M.bind_eq, M.pure_eq]
    rcases hx : a.transpose 0 d s with ⟨r, s1⟩
    have ht : s1.trace = s.trace := by
      have h2 := transpose_trace a 0 d s
      rw [hx] at h2
      exact h2
    cases r with
    | error e1 =>
      rw [M.bind_apply_error _ _ _ _ _ hx]
      exact ht
    | ok x =>
      rw [M.bind_apply_ok _ _ _ _ _ hx]
      rcases hy : ((l.mapM fun a => a.transpose 0 d) : M (List Tensor)) s1 with ⟨r2, s2⟩
      have ht2 : s2.trace = s1.trace := by
        have h3 := mapM_transpose_trace d l s1
        rw [hy] at h3
        exact h3
      cases r2 with
      | error e2 =>
        rw [M.bind_apply_error _ _ _ _ _ hy]
        exact ht2.trans ht
      | ok xs =>
        rw [M.bind_apply_ok _ _ _ _ _ hy, M.pure_apply]
        exact ht2.trans ht

theorem mapM_transpose_lengths (d : Nat) : ∀ (l : List Tensor) (s : St)
    (xs : List Tensor) (s2 : St),
    ((l.mapM fun a => a.transpose 0 d) : M (List Tensor)) s = (.ok xs, s2) →
    List.Forall₂ (fun a x => (Tensor.dims x).length = (Tensor.dims a).length) l xs
  | [], s, xs, s2, h => by
    rw [List.mapM_nil] at h
    simp only [M.pure_eq, M.pure_apply] at h
    cases h
    exact List.Forall₂.nil
  | a :: l, s, xs, s2, h => by
    rw [List.mapM_cons] at h
    simp only [M.bind_eq, M.pure_eq] at h
    rcases ha : a.transpose 0 d s with ⟨ra, sa⟩
    cases ra with
    | error e1 =>
      rw [M.bind_apply_error _ _ _ _ _ ha] at h
      simp at h
    | ok x =>
      rw [M.bind_apply_ok _ _ _ _ _ ha] at h
      rcases hl : ((l.mapM fun a => a.transpose 0 d) : M (List Tensor)) sa with ⟨rl, sl⟩
      cases rl with
      | error e2 =>
        rw [M.bind_apply_error _ _ _ _ _ hl] at h
        simp at h
      | ok ys =>
        rw [M.bind_apply_ok _ _ _ _ _ hl, M.pure_apply] at h
        cases h
        exact List.Forall₂.cons (transpose_ok_rank a 0 d s x sa ha)
          (mapM_transpose_lengths d l sa ys _ hl)

theorem add_error_trace (t rhs : Tensor) (s : St) (e : Err) (s2 : St)
    (h : t.add rhs s = (.error e, s2)) : s2.trace = s.trace := by
  simp only [Tensor.add, M.bind_eq] at h
  rcases hs : t.same_shape_binary_op rhs "add" with er | shape
  · rw [hs, M.bind_ofExcept_error] at h
    cases h
    rfl
  · rw [hs, M.bind_ofExcept_ok] at h
    simp only [Storage.binaryImpl, M.bind_eq] at h
    by_cases hdev : t.storage.device ≠ rhs.storage.device
    · rw [if_pos hdev, M.bind_throw] at h
      cases h
      rfl
    · rw [if_neg hdev] at h
      by_cases hdt : t.storage.dtype ≠ rhs.storage.dtype
      · rw [if_pos hdt, M.bind_throw] at h
        cases h
        rfl
      · rw [if_neg hdt] at h
        simp only [M.bind_eq, M.bind_assoc, M.bind_emit, M.bind_pure_arg, fromStorage,
          M.bind_freshId, M.pure_eq, M.pure_apply] at h
        simp at h

theorem bind_error_trace (x : M α) (f : α → M β) (s : St) (e : Err) (s2 : St)
    (hx : ∀ r s1, x s = (r, s1) → s1.trace = s.trace)
    (hf : ∀ a s1 e2, x s = (.ok a, s1) → f a s1 = (.error e2, s2) → s2.trace = s1.trace)
    (h : M.bind x f s = (.error e, s2)) : s2.trace = s.trace := by
  rcases hx1 : x s with ⟨r, s1⟩
  have h1 := hx r s1 hx1
  cases r with
  | error e1 =>
    rw [M.bind_apply_error _ _ _ _ _ hx1] at h
    cases h
    exact h1
  | ok a =>
    rw [M.bind_apply_ok _ _ _ _ _ hx1] at h
    exact (hf a s1 e hx1 h).trans h1

theorem broadcast_add_error_trace (t rhs : Tensor) (s : St) (e : Err) (s2 : St)
    (h : Tensor.broadcast_add t rhs s = (.error e, s2)) : s2.trace = s.trace := by
  simp only [Tensor.broadcast_add, M.bind_eq] at h
  rcases hsh : broadcastShapeBinaryOp t.dims rhs.dims "broadcast_add" with er | shape
  · rw [hsh, M.bind_ofExcept_error] at h
    cases h
    rfl
  · rw [hsh, M.bind_ofExcept_ok] at h
    by_cases hA : shape = t.dims
    · by_cases hB : shape = rhs.dims
      · simp only [hA, hA.symm.trans hB] at h
        simp at h
        exact add_error_trace t rhs s e s2 h
      · have hB2 : ¬ t.dims = rhs.dims := fun hh => hB (hA.trans hh)
        simp only [hA] at h
        simp [hB2] at h
        exact bind_error_trace _ _ s e s2
          (fun r s1 hr => by
            have h2 := broadcast_as_trace rhs t.dims s
            rw [hr] at h2
            exact h2)
          (fun rb s1 e2 hok herr => add_error_trace t rb s1 e2 s2 herr)
          h
    · by_cases hB : shape = rhs.dims
      · have hA3 : ¬ rhs.dims = t.dims := fun hh => hA (hB.trans hh)
        simp only [hB] at h
        simp [hA3] at h
        exact bind_error_trace _ _ s e s2
          (fun r s1 hr => by
            have h2 := broadcast_as_trace t rhs.dims s
            rw [hr] at h2
            exact h2)
          (fun lb s1 e2 hok herr => add_error_trace lb rhs s1 e2 s2 herr)
          h
      · simp [hA, hB] at h
        exact bind_error_trace _ _ s e s2
          (fun r s1 hr => by
            have h2 := broadcast_as_trace t shape s
            rw [hr] at h2
            exact h2)
          (fun lb s1 e2 hok herr => bind_error_trace _ _ s1 e2 s2
            (fun r s3 hr => by
              have h2 := broadcast_as_trace rhs shape s1
              rw [hr] at h2
              exact h2)
            (fun rb s3 e3 hok2 herr2 => add_error_trace lb rb s3 e3 s2 herr2)
            herr)
          h

theorem matmul_error_trace (t rhs : Tensor) (s : St) (e : Err) (s2 : St)
    (h : Tensor.matmul t rhs s = (.error e, s2)) : s2.trace = s.trace := by
  simp only [Tensor.matmul, M.bind_eq] at h
  by_cases h1 : t.dims.length < 2 ∨ rhs.dims.length ≠ t.dims.length
  · rw [if_pos h1, M.throw_apply] at h
    cases h
    rfl
  · rw [if_neg h1] at h
    by_cases h2 : t.dims.getD (t.dims.length - 1) 0 ≠ rhs.dims.getD (t.dims.length - 2) 0 ∨
        (t.dims.take (t.dims.length - 2)).prod ≠ (rhs.dims.take (t.dims.length - 2)).prod
    · rw [if_pos h2, M.throw_apply] at h
      cases h
      rfl
    · rw [if_neg h2] at h
      simp only [Storage.matmulKernel, M.bind_eq] at h
      by_cases h3 : t.storage.device ≠ rhs.storage.device
      · rw [if_pos h3, M.bind_throw] at h
        cases h
        rfl
      · rw [if_neg h3] at h
        by_cases h4 : t.storage.dtype ≠ rhs.storage.dtype
        · rw [if_pos h4, M.bind_throw] at h
          cases h
          rfl
        · rw [if_neg h4] at h
          simp only [M.bind_eq, M.bind_assoc, M.bind_emit, M.bind_pure_arg, fromStorage,
            M.bind_freshId, M.pure_eq, M.pure_apply] at h
          simp at h

theorem copy_foldlM_ok : ∀ (l : List (Tensor × Nat)) (st : Storage) (s : St),
    ∃ st2 s2, ((l.foldlM (fun dst p =>
        Storage.copyStridedSrc p.1.storage dst p.2 p.1.layout) st) : M Storage) s =
      (.ok st2, s2)
  | [], st, s => ⟨st, s, by rw [List.foldlM_nil]; rfl⟩
  | p :: l, st, s => by
    obtain ⟨st2, s2, ih⟩ := copy_foldlM_ok l
      { st with data := writeAt st.data p.2 (materialize p.1.storage.data p.1.layout) }
      { s with trace := s.trace ++ [BEvent.copyKernel] }
    refine ⟨st2, s2, ?_⟩
    rw [List.foldlM_cons]
    simp only [Storage.copyStridedSrc, M.bind_eq, M.bind_assoc, M.bind_emit,
      M.bind_pure_arg]
    exact ih

theorem cat0_eval (x0 x1 : Tensor) (xs : List Tensor) (s : St) :
    (∃ e, Tensor.cat0 (x0 :: x1 :: xs) s = (.error e, s)) ∨
    (∃ c s2, Tensor.cat0 (x0 :: x1 :: xs) s = (.ok c, s2) ∧
      c.dims = x0.dims.set 0
        ((x0 :: x1 :: xs).foldl (fun acc a => acc + a.dims.headD 0) 0)) := by
  rcases hval : catValidateArgs x0 x0.rank x0.dtype x0.device (x0 :: x1 :: xs) 0 with er | u
  · left
    refine ⟨er, ?_⟩
    simp only [Tensor.cat0, List.isEmpty_cons, M.bind_eq, M.pure_eq]
    rw [if_neg (by simp), hval, M.bind_ofExcept_error]
  · right
    obtain ⟨st2, s2, hfold⟩ := copy_foldlM_ok
      ((x0 :: x1 :: xs).zip (((x0 :: x1 :: xs).map Tensor.elem_count).scanl (· + ·) 0))
      ⟨List.replicate (elemCount (x0.dims.set 0
        ((x0 :: x1 :: xs).foldl (fun acc a => acc + a.dims.headD 0) 0))) 0,
        x0.dtype, x0.device⟩
      { s with trace := s.trace ++ [BEvent.alloc (x0.dims.set 0
          ((x0 :: x1 :: xs).foldl (fun acc a => acc + a.dims.headD 0) 0)) x0.dtype] }
    refine ⟨⟨s2.nextId, st2,
      Layout.contiguous (x0.dims.set 0
        ((x0 :: x1 :: xs).foldl (fun acc a => acc + a.dims.headD 0) 0)),
      BackpropOp.newN (x0 :: x1 :: xs) (fun ids => Op.cat ids 0), false,
      st2.dtype, st2.device⟩, { s2 with nextId := s2.nextId + 1 }, ?_, ?_⟩
    · simp only [Tensor.cat0, List.isEmpty_cons, M.bind_eq, M.pure_eq]
      rw [if_neg (by simp), hval, M.bind_ofExcept_ok]
      simp only [Device.zeros, M.bind_eq, M.bind_assoc, M.bind_emit, M.bind_pure_arg]
      rw [M.bind_apply_ok _ _ _ _ _ hfold]
      rfl
    · rfl

theorem cat_error_trace (args : List Tensor) (dim : Nat) (s : St) (e : Err) (s2 : St)
    (h : Tensor.cat args dim s = (.error e, s2)) : s2.trace = s.trace := by
  rcases args with _ | ⟨arg0, _ | ⟨r1, rs⟩⟩
  · have hred : Tensor.cat [] dim s =
        ((.error (Err.opRequiresAtLeastOneTensor "cat"), s) : Except Err Tensor × St) := rfl
    rw [hred] at h
    cases h
    rfl
  · have hred : Tensor.cat [arg0] dim s = ((.ok arg0, s) : Except Err Tensor × St) := rfl
    rw [hred] at h
    simp at h
  · simp only [Tensor.cat, List.isEmpty_cons, M.bind_eq] at h
    rw [if_neg (by simp)] at h
    rcases hd : dimToIndex dim arg0.dims "cat" with er | d
    · rw [hd, M.bind_ofExcept_error] at h
      cases h
      rfl
    · rw [hd, M.bind_ofExcept_ok] at h
      rcases hfm : (arg0 :: r1 :: rs).forM (fun a2 => a2.check_dim d "cat") with er | u
      · rw [hfm, M.bind_ofExcept_error] at h
        cases h
        rfl
      · rw [hfm, M.bind_ofExcept_ok] at h
        have hdlt : d < arg0.rank := by
          rcases hca : arg0.check_dim d "cat" with er2 | u2
          · have hred : ((arg0 :: r1 :: rs).forM fun a2 => a2.check_dim d "cat") =
                (arg0.check_dim d "cat" >>= fun _ =>
                  (r1 :: rs).forM fun a2 => a2.check_dim d "cat") := rfl
            rw [hred, hca] at hfm
            have hred2 : ((Except.error er2 : Except Err Unit) >>= fun _ =>
                (r1 :: rs).forM fun a2 => a2.check_dim d "cat") =
                (Except.error er2 : Except Err Unit) := rfl
            rw [hred2] at hfm
            cases hfm
          · by_contra hge
            unfold Tensor.check_dim at hca
            have hge2 : d ≥ arg0.dims.length := Nat.not_lt.mp hge
            rw [if_pos hge2] at hca
            cases hca
        by_cases hd0 : d = 0
        · rw [if_pos hd0] at h
          rcases cat0_eval arg0 r1 rs s with ⟨er, hc⟩ | ⟨c, s3, hc, hdims⟩
          · rw [hc] at h
            cases h
            rfl
          · rw [hc] at h
            simp at h
        · rw [if_neg hd0] at h
          rcases hm : ((arg0 :: r1 :: rs).mapM fun a2 => a2.transpose 0 d : M (List Tensor)) s
            with ⟨rm, s1⟩
          have htr1 : s1.trace = s.trace := by
            have h2 := mapM_transpose_trace d (arg0 :: r1 :: rs) s
            rw [hm] at h2
            exact h2
          cases rm with
          | error e1 =>
            rw [M.bind_apply_error _ _ _ _ _ hm] at h
            cases h
            exact htr1
          | ok targs =>
            rw [M.bind_apply_ok _ _ _ _ _ hm] at h
            have hlens := mapM_transpose_lengths d (arg0 :: r1 :: rs) s targs s1 hm
            obtain _ | @⟨_, y0, _, targs1, hy0, htail⟩ := hlens
            obtain _ | @⟨_, y1, _, ys, hy1, htail2⟩ := htail
            rcases cat0_eval y0 y1 ys s1 with ⟨er, hc⟩ | ⟨c, s3, hc, hdims⟩
            · rw [M.bind_apply_error _ _ _ _ _ hc] at h
              cases h
              exact htr1
            · rw [M.bind_apply_ok _ _ _ _ _ hc] at h
              have hdlt2 : d < arg0.dims.length := hdlt
              have hrank : c.rank = arg0.dims.length := by
                show c.dims.length = arg0.dims.length
                rw [hdims, List.length_set]
                exact hy0
              have h0c : 0 < c.rank := by
                rw [hrank]
                omega
              have hdc : d < c.rank := by
                rw [hrank]
                exact hdlt2
              rw [transpose_ok c 0 d s3 h0c hdc] at h
              simp at h

/-- C8: the composite operations — the broadcast wrapper `broadcast_add`,
batched `matmul`, and `cat` along any axis — run all of their shape,
dtype and device validation before any backend kernel or allocation is
invoked, and return on the first violation: whenever a call fails, the
backend trace is exactly what it was before the call. (Input tensors are
immutable values of the embedding, so a failed call cannot mutate any
shared storage; the trace records every backend invocation, including
the destination allocation and the per-operand copies of `cat`.) -/
theorem claim_C8_validate_before_backend (a b : Tensor) (args : List Tensor)
    (dim : Nat) (s : St) :
    (∀ e s2, Tensor.broadcast_add a b s = (.error e, s2) → s2.trace = s.trace) ∧
    (∀ e s2, Tensor.matmul a b s = (.error e, s2) → s2.trace = s.trace) ∧
    (∀ e s2, Tensor.cat args dim s = (.error e, s2) → s2.trace = s.trace) :=
  ⟨fun e s2 h => broadcast_add_error_trace a b s e s2 h,
   fun e s2 h => matmul_error_trace a b s e s2 h,
   fun e s2 h => cat_error_trace args dim s e s2 h⟩

/-- Witness for C8: a concrete failing `matmul` (inner dimensions 3 and 2
disagree) leaves the empty trace empty. -/
theorem claim_C8_witness :
    Tensor.matmul sampleT23 sampleT23 ⟨30, []⟩ =
      (.error (Err.shapeMismatchBinaryOp [2, 3] [2, 3] "matmul"), (⟨30, []⟩ : St)) ∧
    (⟨30, []⟩ : St).trace = (⟨30, []⟩ : St).trace :=
  ⟨by decide,
   (claim_C8_validate_before_backend sampleT23 sampleT23 [] 0 ⟨30, []⟩).2.1
     (Err.shapeMismatchBinaryOp [2, 3] [2, 3] "matmul") ⟨30, []⟩ (by decide)⟩

end Candle
